import Mathlib

/-!
Verification development for the `chalet` charging-station placement system.

The definitions below are shallow embeddings of the Python source under
`src/chalet/`.  Floating point arithmetic of the source is modelled by exact
rational arithmetic (`ℚ`); the battery charge curve, which uses square roots,
is modelled over `ℝ`.  NetworkX library calls are modelled by their documented
contracts: `nx.bidirectional_dijkstra` returns a path of minimal total weight
together with that weight (weights produced by the call sites are non-negative),
and raises when either endpoint is missing or no path exists, which the
call sites of `chalet.algo.csp.shortest_path` turn into `([], inf)`.
`inf` results are modelled by `Option`/`Except`.
-/

namespace Chalet

/-- Edge attribute record: every arc of a per-pair subgraph carries exactly the
four attributes `TIME`, `FUEL_TIME`, `BREAK_TIME`, `DISTANCE`
(`graph.py`, `nx.from_pandas_edgelist` with those columns). -/
structure ArcAttr where
  time : ℚ
  fuelTime : ℚ
  breakTime : ℚ
  distance : ℚ
deriving DecidableEq, Repr

/-- The all-zero attribute record. -/
def ArcAttr.zero : ArcAttr := ⟨0, 0, 0, 0⟩

/-- A directed edge with its attribute dictionary. -/
structure Edge where
  tail : Int
  head : Int
  attr : ArcAttr
deriving DecidableEq, Repr

/-- Model of `nx.DiGraph`: nodes carry the `COST` attribute, edges carry
`ArcAttr`.  Node ids and edge `(tail, head)` keys are unique in a well-formed
graph (networkx stores both in dictionaries). -/
structure Digraph where
  nodes : List (Int × ℚ)
  edges : List Edge
deriving DecidableEq, Repr

def Digraph.empty : Digraph := ⟨[], []⟩

def Digraph.nodeIds (g : Digraph) : List Int := g.nodes.map Prod.fst

def Digraph.outEdges (g : Digraph) (u : Int) : List Edge :=
  g.edges.filter (fun e => e.tail == u)

def Digraph.inEdges (g : Digraph) (u : Int) : List Edge :=
  g.edges.filter (fun e => e.head == u)

def Digraph.succ (g : Digraph) (u : Int) : List Int :=
  (g.outEdges u).map Edge.head

/-- Attribute lookup `graph.edges[u, v]`; `none` when the edge is absent
(a KeyError in Python).  Later insertions win, as in a networkx edge dict. -/
def Digraph.edgeAttr (g : Digraph) (u v : Int) : Option ArcAttr :=
  (g.edges.reverse.find? (fun e => e.tail == u && e.head == v)).map Edge.attr

/-- Total version of `edgeAttr`; call sites only evaluate it on consecutive
nodes of paths of `g`, where the edge exists. -/
def Digraph.edgeAttrD (g : Digraph) (u v : Int) : ArcAttr :=
  (g.edgeAttr u v).getD ArcAttr.zero

/-- Node cost lookup `graph.nodes[u]["COST"]` with default 0. -/
def Digraph.costOf (g : Digraph) (u : Int) : ℚ :=
  ((g.nodes.reverse.find? (fun p => p.1 == u)).map Prod.snd).getD 0

/-- Edge weight functions `(tail, head, attr_dict) -> float` of `csp.py`. -/
abbrev WFun := Int → Int → ArcAttr → ℚ

/-- `csp.arc_time`: road time plus fuel time plus break time. -/
def arcTime : WFun := fun _ _ a => a.time + a.fuelTime + a.breakTime

/-- `csp.arc_road_time`: road time only. -/
def arcRoadTime : WFun := fun _ _ a => a.time

/-- Sum of an edge weight function over the consecutive arcs of a path,
as computed by `calc_weight`/`calc_length`/`calc_cost` in `csp._larac`. -/
def pathCost (g : Digraph) (f : WFun) : List Int → ℚ
  | u :: v :: rest => f u v (g.edgeAttrD u v) + pathCost g f (v :: rest)
  | _ => 0

/-- All duplicate-free paths from `cur` to `dest`; `visited` holds the nodes
already on the partial path (including `cur`), `fuel` bounds the remaining
length.  Enumeration model of graph search. -/
def simplePathsAux (g : Digraph) (dest : Int) : ℕ → Int → List Int → List (List Int)
  | 0, _, _ => []
  | fuel + 1, cur, visited =>
    if cur = dest then [[cur]]
    else
      ((g.succ cur).filter (fun v => !visited.contains v)).flatMap
        (fun v => (simplePathsAux g dest fuel v (v :: visited)).map (cur :: ·))

/-- All simple paths from `o` to `d` in `g`; empty when either endpoint is not
a node of `g` (`nx.NodeNotFound`). -/
def simplePaths (g : Digraph) (o d : Int) : List (List Int) :=
  if g.nodeIds.contains o && g.nodeIds.contains d then
    simplePathsAux g d (g.nodeIds.length + 1) o [o]
  else []

/-- `csp.shortest_path`: a path of minimal length together with its length,
`none` for the `([], inf)` case.  Models `nx.bidirectional_dijkstra`, whose
contract (for the non-negative weights produced by all call sites) is to
return a minimum-weight path and its weight. -/
def shortestPath (g : Digraph) (o d : Int) (f : WFun) : Option (List Int × ℚ) :=
  match (simplePaths g o d).argmin (pathCost g f) with
  | none => none
  | some p => some (p, pathCost g f p)

/-- `chalet.common.constants.EPS`. -/
def EPS : ℚ := 1 / 100000000

/-- `chalet.common.constants.EPS_INT`. -/
def EPS_INT : ℚ := 1 / 1000000

/-- The `while True` loop of `csp._larac`, with an explicit fuel parameter:
`none` models both the `([], inf)` error return and a non-terminating run,
so every value the Python loop actually returns is produced for every
sufficiently large fuel. -/
def laracLoop (g : Digraph) (o d : Int) (bound : ℚ) (weightFunc lengthFunc : WFun) :
    ℕ → List Int → List Int → Option (List Int × ℚ)
  | 0, _, _ => none
  | fuel + 1, spath, wpath =>
    let lam : ℚ := (pathCost g lengthFunc wpath - pathCost g lengthFunc spath) /
      (pathCost g weightFunc spath - pathCost g weightFunc wpath)
    let costFunc : WFun := fun t h a => lengthFunc t h a + lam * weightFunc t h a
    match shortestPath g o d costFunc with
    | none => none
    | some (path, pcost) =>
      if |pcost - pathCost g costFunc spath| < EPS then
        some (wpath, pathCost g lengthFunc wpath)
      else if pathCost g weightFunc path ≤ bound then
        laracLoop g o d bound weightFunc lengthFunc fuel spath path
      else
        laracLoop g o d bound weightFunc lengthFunc fuel path wpath

/-- `csp._larac`: heuristic weight-bounded shortest path. -/
def larac (g : Digraph) (o d : Int) (bound : ℚ) (weightFunc lengthFunc : WFun)
    (fuel : ℕ) : Option (List Int × ℚ) :=
  match shortestPath g o d lengthFunc with
  | none => none
  | some (spath, spathLength) =>
    if pathCost g weightFunc spath ≤ bound then some (spath, spathLength)
    else
      match shortestPath g o d weightFunc with
      | none => none
      | some (wpath, wpathWeight) =>
        if bound < wpathWeight then none
        else laracLoop g o d bound weightFunc lengthFunc fuel spath wpath

/-- `csp._road_time_bounded_fastest_path`. -/
def roadTimeBoundedFastestPath (g : Digraph) (o d : Int) (maxRoadTime : ℚ)
    (fuel : ℕ) : Option (List Int × ℚ) :=
  larac g o d maxRoadTime arcRoadTime arcTime fuel

/-- `csp._time_bounded_fastest_road_path`. -/
def timeBoundedFastestRoadPath (g : Digraph) (o d : Int) (maxTime : ℚ)
    (fuel : ℕ) : Option (List Int × ℚ) :=
  larac g o d maxTime arcTime arcRoadTime fuel

/-- `csp.time_feasible_path`. -/
def timeFeasiblePath (g : Digraph) (o d : Int) (maxRoadTime maxTime : ℚ)
    (fuel : ℕ) : List Int :=
  match roadTimeBoundedFastestPath g o d maxRoadTime fuel with
  | none => []
  | some (path, pathTime) =>
    if maxTime < pathTime then
      match timeBoundedFastestRoadPath g o d maxTime fuel with
      | none => []
      | some (path2, pathRoadTime) =>
        if maxRoadTime < pathRoadTime then [] else path2
    else path

/-! ### Soundness of the CSP engine (infrastructure for C1, C5, C6) -/

theorem shortestPath_eq (g : Digraph) (o d : Int) (f : WFun) (p : List Int) (c : ℚ)
    (h : shortestPath g o d f = some (p, c)) :
    c = pathCost g f p ∧ p ∈ simplePaths g o d := by
  unfold shortestPath at h
  cases harg : (simplePaths g o d).argmin (pathCost g f) with
  | none => rw [harg] at h; exact absurd h (by simp)
  | some q =>
    rw [harg] at h
    simp only [Option.some.injEq, Prod.mk.injEq] at h
    obtain ⟨hpq, hc⟩ := h
    subst hpq
    exact ⟨hc.symm, List.argmin_mem harg⟩

theorem laracLoop_sound (g : Digraph) (o d : Int) (bound : ℚ) (wf lf : WFun) :
    ∀ (fuel : ℕ) (spath wpath : List Int),
    pathCost g wf wpath ≤ bound → wpath ∈ simplePaths g o d →
    ∀ (p : List Int) (c : ℚ),
    laracLoop g o d bound wf lf fuel spath wpath = some (p, c) →
    pathCost g wf p ≤ bound ∧ c = pathCost g lf p ∧ p ∈ simplePaths g o d := by
  intro fuel
  induction fuel with
  | zero => intro spath wpath _ _ p c h; exact absurd h (by simp [laracLoop])
  | succ n ih =>
    intro spath wpath hw hmem p c h
    rw [laracLoop] at h
    set lam : ℚ := (pathCost g lf wpath - pathCost g lf spath) /
      (pathCost g wf spath - pathCost g wf wpath) with hlam
    set cf : WFun := fun t h a => lf t h a + lam * wf t h a with hcf
    cases hsp : shortestPath g o d cf with
    | none => rw [hsp] at h; exact absurd h (by simp)
    | some pc =>
      obtain ⟨q, qc⟩ := pc
      rw [hsp] at h
      simp only at h
      by_cases hstop : |qc - pathCost g cf spath| < EPS
      · rw [if_pos hstop] at h
        simp only [Option.some.injEq, Prod.mk.injEq] at h
        obtain ⟨hp, hc⟩ := h
        subst hp
        exact ⟨hw, hc.symm, hmem⟩
      · rw [if_neg hstop] at h
        by_cases hqb : pathCost g wf q ≤ bound
        · rw [if_pos hqb] at h
          exact ih spath q hqb (shortestPath_eq g o d cf q qc hsp).2 p c h
        · rw [if_neg hqb] at h
          exact ih q wpath hw hmem p c h

theorem larac_sound (g : Digraph) (o d : Int) (bound : ℚ) (wf lf : WFun)
    (fuel : ℕ) (p : List Int) (c : ℚ)
    (h : larac g o d bound wf lf fuel = some (p, c)) :
    pathCost g wf p ≤ bound ∧ c = pathCost g lf p ∧ p ∈ simplePaths g o d := by
  unfold larac at h
  cases hsp : shortestPath g o d lf with
  | none => rw [hsp] at h; exact absurd h (by simp)
  | some pc =>
    obtain ⟨spath, spathLength⟩ := pc
    rw [hsp] at h
    simp only at h
    obtain ⟨hlen, hmem⟩ := shortestPath_eq g o d lf spath spathLength hsp
    by_cases hsb : pathCost g wf spath ≤ bound
    · rw [if_pos hsb] at h
      simp only [Option.some.injEq, Prod.mk.injEq] at h
      obtain ⟨hp, hc⟩ := h
      subst hp
      exact ⟨hsb, hc ▸ hlen, hmem⟩
    · rw [if_neg hsb] at h
      cases hwp : shortestPath g o d wf with
      | none => rw [hwp] at h; exact absurd h (by simp)
      | some pc2 =>
        obtain ⟨wpath, wpathWeight⟩ := pc2
        rw [hwp] at h
        simp only at h
        obtain ⟨hwlen, hwmem⟩ := shortestPath_eq g o d wf wpath wpathWeight hwp
        by_cases hbw : bound < wpathWeight
        · rw [if_pos hbw] at h; exact absurd h (by simp)
        · rw [if_neg hbw] at h
          exact laracLoop_sound g o d bound wf lf fuel spath wpath
            (hwlen ▸ le_of_not_lt hbw) hwmem p c h

/-- Core soundness of `time_feasible_path`: a non-empty result satisfies both
time bounds and is a simple path of the graph. -/
theorem timeFeasiblePath_sound' (g : Digraph) (o d : Int) (maxRoadTime maxTime : ℚ)
    (fuel : ℕ) (p : List Int) (hp : timeFeasiblePath g o d maxRoadTime maxTime fuel = p)
    (hne : p ≠ []) :
    pathCost g arcRoadTime p ≤ maxRoadTime ∧ pathCost g arcTime p ≤ maxTime ∧
    p ∈ simplePaths g o d := by
  unfold timeFeasiblePath at hp
  split at hp
  · exact absurd hp.symm hne
  · rename_i path pathTime h1
    obtain ⟨hroad, htime, hmem⟩ := larac_sound g o d maxRoadTime arcRoadTime arcTime fuel
      path pathTime h1
    split at hp
    · rename_i hgt
      split at hp
      · exact absurd hp.symm hne
      · rename_i path2 pathRoadTime h2
        obtain ⟨htime2, hroad2, hmem2⟩ := larac_sound g o d maxTime arcTime arcRoadTime fuel
          path2 pathRoadTime h2
        split at hp
        · exact absurd hp.symm hne
        · rename_i hgt2
          subst hp
          exact ⟨hroad2 ▸ le_of_not_lt hgt2, htime2, hmem2⟩
    · rename_i hgt
      subst hp
      exact ⟨hroad, htime ▸ le_of_not_lt hgt, hmem⟩

theorem timeFeasiblePath_sound (g : Digraph) (o d : Int) (maxRoadTime maxTime : ℚ)
    (fuel : ℕ) (hne : timeFeasiblePath g o d maxRoadTime maxTime fuel ≠ []) :
    pathCost g arcRoadTime (timeFeasiblePath g o d maxRoadTime maxTime fuel) ≤ maxRoadTime ∧
    pathCost g arcTime (timeFeasiblePath g o d maxRoadTime maxTime fuel) ≤ maxTime ∧
    timeFeasiblePath g o d maxRoadTime maxTime fuel ∈ simplePaths g o d :=
  timeFeasiblePath_sound' g o d maxRoadTime maxTime fuel _ rfl hne

/-- C1 concrete witness graph: one arc `1 → 2` with road time 5, fuel time 1. -/
def witnessGraphC1 : Digraph :=
  ⟨[(1, 0), (2, 0)], [⟨1, 2, ⟨5, 1, 0, 0⟩⟩]⟩

/-- C1: for every directed graph whose arcs carry non-negative `TIME`,
`FUEL_TIME` and `BREAK_TIME`, every origin, destination and bounds `Rmax`
(max road time) and `Tmax` (max total time): if `time_feasible_path` returns a
non-empty path `p`, then the sum of `TIME` over `p`'s arcs is at most `Rmax`
and the sum of `TIME + FUEL_TIME + BREAK_TIME` over `p`'s arcs is at most
`Tmax`. -/
theorem c1_time_feasible_path_within_bounds (g : Digraph) (o d : Int)
    (maxRoadTime maxTime : ℚ) (fuel : ℕ)
    (hnn : ∀ e ∈ g.edges, 0 ≤ e.attr.time ∧ 0 ≤ e.attr.fuelTime ∧ 0 ≤ e.attr.breakTime)
    (hne : timeFeasiblePath g o d maxRoadTime maxTime fuel ≠ []) :
    pathCost g arcRoadTime (timeFeasiblePath g o d maxRoadTime maxTime fuel) ≤ maxRoadTime ∧
    pathCost g arcTime (timeFeasiblePath g o d maxRoadTime maxTime fuel) ≤ maxTime := by
  obtain ⟨h1, h2, _⟩ := timeFeasiblePath_sound g o d maxRoadTime maxTime fuel hne
  exact ⟨h1, h2⟩

/-- Evaluation of the CSP engine on the C1 witness graph. -/
theorem witnessGraphC1_eval : timeFeasiblePath witnessGraphC1 1 2 10 10 5 = [1, 2] := by
  norm_num [timeFeasiblePath, larac, laracLoop, shortestPath, simplePaths, simplePathsAux,
    pathCost, arcTime, arcRoadTime, Digraph.edgeAttrD, Digraph.edgeAttr, Digraph.succ,
    Digraph.outEdges, Digraph.nodeIds, witnessGraphC1, List.argmin, List.argAux,
    roadTimeBoundedFastestPath, timeBoundedFastestRoadPath, ArcAttr.zero]

/-- Witness for C1 at a concrete input. -/
theorem c1_time_feasible_path_within_bounds_witness :
    (∀ e ∈ witnessGraphC1.edges,
      0 ≤ e.attr.time ∧ 0 ≤ e.attr.fuelTime ∧ 0 ≤ e.attr.breakTime) ∧
    timeFeasiblePath witnessGraphC1 1 2 10 10 5 ≠ [] ∧
    (pathCost witnessGraphC1 arcRoadTime (timeFeasiblePath witnessGraphC1 1 2 10 10 5) ≤ 10 ∧
     pathCost witnessGraphC1 arcTime (timeFeasiblePath witnessGraphC1 1 2 10 10 5) ≤ 10) :=
  ⟨by decide, by rw [witnessGraphC1_eval]; decide,
    c1_time_feasible_path_within_bounds witnessGraphC1 1 2 10 10 5 (by decide)
      (by rw [witnessGraphC1_eval]; decide)⟩

/-! ### Transit-time model (`chalet/model/transit_time.py`) -/

/-- `TransitTime(max_road_time_once, single_break_time)`. -/
structure TransitTime where
  maxRoadTimeOnce : ℚ
  singleBreakTime : ℚ

/-- `TransitTime.break_time`: one break of length `single_break_time` for every
full `max_road_time_once` of road time. -/
def TransitTime.breakTime (tt : TransitTime) (roadTimes : ℚ) : ℚ :=
  ⌊roadTimes / tt.maxRoadTimeOnce⌋ * tt.singleBreakTime

/-- `TransitTime.full_time`: road time plus break time. -/
def TransitTime.fullTime (tt : TransitTime) (roadTimes : ℚ) : ℚ :=
  roadTimes + tt.breakTime roadTimes

/-- `TransitTime.road_time`: inverse of `full_time`. -/
def TransitTime.roadTime (tt : TransitTime) (transitTimes : ℚ) : ℚ :=
  let numBlocks : ℤ := ⌊transitTimes / (tt.maxRoadTimeOnce + tt.singleBreakTime)⌋
  let fracTime : ℚ :=
    (transitTimes - numBlocks * (tt.maxRoadTimeOnce + tt.singleBreakTime)) / tt.maxRoadTimeOnce
  ((numBlocks : ℚ) + min fracTime 1) * tt.maxRoadTimeOnce

/-- C7: for every `r ≥ 0`, with `Rmax = max_road_time_once` and
`B = single_break_time` both positive, the transit-time model satisfies
`road_time(full_time(r)) = r`. -/
theorem c7_transit_time_round_trip (r Rmax B : ℚ) (hr : 0 ≤ r) (hR : 0 < Rmax)
    (hB : 0 < B) :
    TransitTime.roadTime ⟨Rmax, B⟩ (TransitTime.fullTime ⟨Rmax, B⟩ r) = r := by
  unfold TransitTime.roadTime TransitTime.fullTime TransitTime.breakTime
  simp only
  set q : ℤ := ⌊r / Rmax⌋ with hq
  have hqr : (q : ℚ) * Rmax ≤ r := by
    rw [hq]
    have h1 : (⌊r / Rmax⌋ : ℚ) ≤ r / Rmax := Int.floor_le (r / Rmax)
    calc (⌊r / Rmax⌋ : ℚ) * Rmax ≤ r / Rmax * Rmax := by
          exact mul_le_mul_of_nonneg_right h1 (le_of_lt hR)
      _ = r := div_mul_cancel₀ r (ne_of_gt hR)
  have hrq : r < ((q : ℚ) + 1) * Rmax := by
    rw [hq]
    have h1 : r / Rmax < (⌊r / Rmax⌋ : ℚ) + 1 := Int.lt_floor_add_one (r / Rmax)
    calc r = r / Rmax * Rmax := (div_mul_cancel₀ r (ne_of_gt hR)).symm
      _ < ((⌊r / Rmax⌋ : ℚ) + 1) * Rmax := by
          exact mul_lt_mul_of_pos_right h1 hR
  have hblock : (0 : ℚ) < Rmax + B := by linarith
  have hdiv : (r + (q : ℚ) * B) / (Rmax + B) = (q : ℚ) + (r - q * Rmax) / (Rmax + B) := by
    field_simp
    ring
  have hfrac0 : (0 : ℚ) ≤ (r - (q : ℚ) * Rmax) / (Rmax + B) := by
    apply div_nonneg (by linarith) (le_of_lt hblock)
  have hfrac1 : (r - (q : ℚ) * Rmax) / (Rmax + B) < 1 := by
    rw [div_lt_one hblock]
    nlinarith
  have hfloor : ⌊(r + (q : ℚ) * B) / (Rmax + B)⌋ = q := by
    rw [hdiv, Int.floor_int_add]
    have h0 : ⌊(r - (q : ℚ) * Rmax) / (Rmax + B)⌋ = 0 := by
      rw [Int.floor_eq_zero_iff]
      exact ⟨hfrac0, hfrac1⟩
    omega
  rw [hfloor]
  have hfrac : (r + (q : ℚ) * B - q * (Rmax + B)) / Rmax = (r - q * Rmax) / Rmax := by
    ring_nf
  rw [hfrac]
  have hlt1 : (r - (q : ℚ) * Rmax) / Rmax < 1 := by
    rw [div_lt_one hR]
    nlinarith
  rw [min_eq_left (le_of_lt hlt1)]
  field_simp

/-- Witness for C7 at `r = 300`, `Rmax = 270`, `B = 45`. -/
theorem c7_transit_time_round_trip_witness :
    (0 : ℚ) ≤ 300 ∧ (0 : ℚ) < 270 ∧ (0 : ℚ) < 45 ∧
    TransitTime.roadTime ⟨270, 45⟩ (TransitTime.fullTime ⟨270, 45⟩ 300) = 300 :=
  ⟨by norm_num, by norm_num, by norm_num,
    c7_transit_time_round_trip 300 270 45 (by norm_num) (by norm_num) (by norm_num)⟩

/-! ### Parameters (`chalet/model/parameters.py`, `input_parameters.py`) -/

/-- `InputParameters` dataclass with its default values; `cost_budget` may be
`float("inf")`, modelled by `none`. -/
structure InputParameters where
  devFactor : ℚ := 1.1
  minDeviation : ℚ := 30
  costBudget : Option ℚ := none
  truckRange : ℚ := 300
  safetyMargin : ℚ := 50
  chargerPower : ℚ := 360
  batteryCapacity : ℚ := 540
  maxFuelTime : ℚ := 45
  tolerance : ℚ := 0
  maxRunTime : ℤ := 3600
  numProc : ℤ := 1
deriving DecidableEq, Repr

/-- `Parameters`: input parameters plus the fields derived in
`Parameters.__init__`. -/
structure Parameters where
  devFactor : ℚ
  minDeviation : ℚ
  costBudget : Option ℚ
  truckRange : ℚ
  safetyMargin : ℚ
  chargerPower : ℚ
  batteryCapacity : ℚ
  maxFuelTime : ℚ
  tolerance : ℚ
  safeRange : ℚ
  minState : ℚ
  maxRoadTimeOnce : ℚ
  legalBreakTime : ℚ
  minFuelTime : ℚ
  destRange : ℚ
  origRange : ℚ
deriving DecidableEq, Repr

/-- `Parameters.check_params`; raised exceptions are modelled by `.error`.
Note the source tests `dev_factor <= 0` while its message demands `>= 1`. -/
def Parameters.checkParams (p : Parameters) : Except String Unit :=
  if p.maxFuelTime < 0 then
    .error "Refueling stop time limit must be non negative"
  else if p.devFactor ≤ 0 then
    .error "Transit time deviation factor must be greater than or equal to 1."
  else if p.tolerance < 0 then
    .error "Tolerance should not be negative"
  else if p.safeRange < p.destRange then
    .error "Range at destinations must not exceed maximum effective truck range"
  else .ok ()

/-- `Parameters.__init__`: derive fields, then `check_params`. -/
def mkParameters (ip : InputParameters) : Except String Parameters :=
  let safeRange := ip.truckRange - ip.safetyMargin
  let p : Parameters :=
    { devFactor := ip.devFactor
      minDeviation := max ip.minDeviation 0
      costBudget := ip.costBudget
      truckRange := ip.truckRange
      safetyMargin := ip.safetyMargin
      chargerPower := ip.chargerPower
      batteryCapacity := ip.batteryCapacity
      maxFuelTime := ip.maxFuelTime
      tolerance := ip.tolerance
      safeRange := safeRange
      minState := ip.safetyMargin / ip.truckRange
      maxRoadTimeOnce := 270
      legalBreakTime := 45
      minFuelTime := 0
      destRange := 0.5 * safeRange
      origRange := 0.5 * safeRange }
  match p.checkParams with
  | .ok _ => .ok p
  | .error e => .error e

/-- C9: the source raises a parameter error only when `dev_factor <= 0`, so an
input parameter set with `dev_factor = 1/2 < 1` (all other fields default and
in range) constructs successfully — no fatal parameter error is raised,
contradicting the claim (and the source's own error message, which demands a
value greater than or equal to 1). -/
theorem c9_dev_factor_below_one_accepted :
    ((1 : ℚ) / 2 < 1) ∧ (mkParameters { devFactor := 1 / 2 }).isOk = true := by
  constructor
  · norm_num
  · norm_num [mkParameters, Parameters.checkParams, Except.isOk, Except.toBool]

/-! ### Arc preprocessor range filter (`chalet/preprocess/arcs.py`) -/

/-- `NodeType` enum. -/
inductive NodeType where
  | SITE : NodeType
  | STATION : NodeType
deriving DecidableEq, Repr

/-- Raw arc row of the arcs table (before fuel/break columns are added). -/
structure RawArc where
  tailId : Int
  headId : Int
  time : ℚ
  distance : ℚ
deriving DecidableEq, Repr

/-- The vectorized `remove` mask of `PreprocessArcs._range_filter_arcs`,
evaluated at one arc.  `typeOf` models the `nodes` type-column lookup (the
pipeline guarantees that both endpoints are present). -/
def rangeFilterRemove (typeOf : Int → NodeType) (origRange destRange truckRange minDist : ℚ)
    (a : RawArc) : Bool :=
  let tailIsSite := decide (typeOf a.tailId = NodeType.SITE)
  let headIsSite := decide (typeOf a.headId = NodeType.SITE)
  let exceedsRange := decide (truckRange < a.distance)
  let exceedsInitialRange := decide (origRange < a.distance)
  let exceedsFinalRange := decide (truckRange - destRange < a.distance)
  let selfLoop := decide (a.tailId = a.headId)
  let tooClose := decide (a.distance < minDist)
  selfLoop || exceedsRange || (headIsSite && exceedsFinalRange) ||
    (tailIsSite && exceedsInitialRange) || (tailIsSite && headIsSite) ||
    (!tailIsSite && !headIsSite && tooClose)

/-- `PreprocessArcs._range_filter_arcs`: the `ValueError` checks followed by
the drop of all arcs matching the remove mask. -/
def rangeFilterArcs (arcs : List RawArc) (typeOf : Int → NodeType)
    (origRange destRange truckRange minDist : ℚ) : Except String (List RawArc) :=
  if truckRange < minDist then .error "min_dist exceeds maximum truck range"
  else if truckRange < origRange then .error "orig_range exceeds maximum truck range"
  else if truckRange < destRange then .error "dest_range exceeds maximum truck range"
  else .ok (arcs.filter (fun a => !rangeFilterRemove typeOf origRange destRange truckRange minDist a))

/-- The call made by `PreprocessArcs._preprocess_arcs`: the `truck_range`
argument of `_range_filter_arcs` is bound to `params.safe_range` and
`min_dist` to `0.2 * params.safe_range`. -/
def preprocessRangeFilter (p : Parameters) (arcs : List RawArc)
    (typeOf : Int → NodeType) : Except String (List RawArc) :=
  rangeFilterArcs arcs typeOf p.origRange p.destRange p.safeRange (0.2 * p.safeRange)

/-- The removal condition as worded by the claim (and the spec): thresholds
`truck_range` and `truck_range - dest_range` use the full truck range. -/
def claimedRangeFilterRemove (typeOf : Int → NodeType) (p : Parameters) (a : RawArc) : Bool :=
  let tailIsSite := decide (typeOf a.tailId = NodeType.SITE)
  let headIsSite := decide (typeOf a.headId = NodeType.SITE)
  decide (a.tailId = a.headId) || decide (p.truckRange < a.distance) ||
    (headIsSite && decide (p.truckRange - p.destRange < a.distance)) ||
    (tailIsSite && decide (p.origRange < a.distance)) ||
    (!tailIsSite && !headIsSite && decide (a.distance < 0.2 * p.safeRange)) ||
    (tailIsSite && headIsSite)

/-- The removal condition the code actually applies: thresholds use
`safe_range = truck_range - safety_margin`. -/
def amendedRangeFilterRemove (typeOf : Int → NodeType) (p : Parameters) (a : RawArc) : Bool :=
  let tailIsSite := decide (typeOf a.tailId = NodeType.SITE)
  let headIsSite := decide (typeOf a.headId = NodeType.SITE)
  decide (a.tailId = a.headId) || decide (p.safeRange < a.distance) ||
    (headIsSite && decide (p.safeRange - p.destRange < a.distance)) ||
    (tailIsSite && decide (p.origRange < a.distance)) ||
    (!tailIsSite && !headIsSite && decide (a.distance < 0.2 * p.safeRange)) ||
    (tailIsSite && headIsSite)

/-- Default parameters as derived by `Parameters.__init__`
(`truck_range = 300`, `safety_margin = 50`, hence `safe_range = 250`). -/
def defaultParameters : Parameters :=
  { devFactor := 1.1
    minDeviation := 30
    costBudget := none
    truckRange := 300
    safetyMargin := 50
    chargerPower := 360
    batteryCapacity := 540
    maxFuelTime := 45
    tolerance := 0
    safeRange := 250
    minState := 1 / 6
    maxRoadTimeOnce := 270
    legalBreakTime := 45
    minFuelTime := 0
    destRange := 125
    origRange := 125 }

theorem defaultParameters_eq : mkParameters {} = .ok defaultParameters := by
  norm_num [mkParameters, Parameters.checkParams, defaultParameters]

/-- The C4 counterexample arc: station-to-station, distance 260. -/
def cexArcC4 : RawArc := ⟨10, 11, 100, 260⟩

/-- C4 counterexample: under default parameters (`truck_range = 300`,
`safe_range = 250`), a station-to-station arc of distance 260 is removed by
the range filter although the claim says only arcs with
`distance > truck_range = 300` are removed: the claim's removal condition is
false for this arc while the code drops it. -/
theorem c4_range_filter_counterexample :
    preprocessRangeFilter defaultParameters [cexArcC4] (fun _ => NodeType.STATION) = .ok [] ∧
    claimedRangeFilterRemove (fun _ => NodeType.STATION) defaultParameters cexArcC4 = false := by
  constructor
  · norm_num [preprocessRangeFilter, rangeFilterArcs, rangeFilterRemove, defaultParameters,
      cexArcC4, List.filter]
  · norm_num [claimedRangeFilterRemove, defaultParameters, cexArcC4]
    decide

/-- C4 amended: with `dest_range = orig_range = 0.5 * safe_range` (as derived
in `Parameters.__init__`) and `safe_range ≥ 0`, the range filter removes
exactly: self-loops; arcs with `distance > safe_range`; arcs into a site with
`distance > safe_range - dest_range`; arcs out of a site with
`distance > orig_range`; station-to-station arcs with
`distance < 0.2 * safe_range`; and all site-to-site arcs. -/
theorem c4_range_filter_amended (p : Parameters) (arcs : List RawArc)
    (typeOf : Int → NodeType) (hs : 0 ≤ p.safeRange)
    (hdest : p.destRange = 0.5 * p.safeRange) (horig : p.origRange = 0.5 * p.safeRange) :
    preprocessRangeFilter p arcs typeOf =
      .ok (arcs.filter (fun a => !amendedRangeFilterRemove typeOf p a)) := by
  unfold preprocessRangeFilter rangeFilterArcs
  rw [if_neg (by rw [not_lt]; linarith), if_neg (by rw [not_lt, horig]; linarith),
    if_neg (by rw [not_lt, hdest]; linarith)]
  congr 1
  apply List.filter_congr
  intro a _
  congr 1
  unfold rangeFilterRemove amendedRangeFilterRemove
  rcases typeOf a.tailId with _ | _ <;> rcases typeOf a.headId with _ | _ <;> simp

/-- Witness for the C4 amended theorem at default parameters. -/
theorem c4_range_filter_amended_witness :
    ((0 : ℚ) ≤ defaultParameters.safeRange ∧
      defaultParameters.destRange = 0.5 * defaultParameters.safeRange ∧
      defaultParameters.origRange = 0.5 * defaultParameters.safeRange) ∧
    preprocessRangeFilter defaultParameters [cexArcC4] (fun _ => NodeType.STATION) =
      .ok ([cexArcC4].filter
        (fun a => !amendedRangeFilterRemove (fun _ => NodeType.STATION) defaultParameters a)) :=
  ⟨⟨by norm_num [defaultParameters], by norm_num [defaultParameters],
      by norm_num [defaultParameters]⟩,
    c4_range_filter_amended defaultParameters [cexArcC4] (fun _ => NodeType.STATION)
      (by norm_num [defaultParameters]) (by norm_num [defaultParameters])
      (by norm_num [defaultParameters])⟩

/-! ### Filtered subgraph views and the coverage oracle
(`nx.subgraph_view(..., filter_node=...)`, `util.get_feasible_path`) -/

/-- Model of `nx.subgraph_view(g, filter_node=pred)`: nodes failing `pred` are
hidden together with their incident edges. -/
def filterGraph (g : Digraph) (pred : Int → Bool) : Digraph :=
  ⟨g.nodes.filter (fun p => pred p.1), g.edges.filter (fun e => pred e.tail && pred e.head)⟩

/-- An OD pair row after preprocessing (columns used by the algorithms). -/
structure OdPairRow where
  originId : Int
  destinationId : Int
  demand : ℚ
  maxRoadTime : ℚ
  maxTime : ℚ
  feasible : Bool
deriving DecidableEq, Repr

/-- `util.get_feasible_path`. -/
def getFeasiblePath (subGraph : Digraph) (pair : OdPairRow) (filterFunc : Int → Bool)
    (fuel : ℕ) : List Int :=
  timeFeasiblePath (filterGraph subGraph filterFunc) pair.originId pair.destinationId
    pair.maxRoadTime pair.maxTime fuel

/-- `util.is_dummy`. -/
def isDummy (node : Int) : Bool := decide (node < 0)

/-- Node data used by `util.py`: the `COST` and `real` columns of the global
node table, modelled as total lookup functions (the pipeline only looks up
nodes that are present in the table). -/
structure NodeTable where
  cost : Int → ℚ
  real : Int → Bool

/-- `util.is_real`. -/
def isReal (nodes : NodeTable) (node : Int) : Bool :=
  isDummy node || decide (nodes.cost node < EPS)

/-- `util.is_candidate`. -/
def isCandidate (nodes : NodeTable) (node : Int) : Bool :=
  !isReal nodes node

/-- `util.check_pair_coverage`: the resulting `COVERED` column. -/
def checkPairCoverage (nodes : NodeTable) (subgraphs : List Digraph)
    (odPairs : List OdPairRow) (fuel : ℕ) : List Bool :=
  let filterFunc : Int → Bool := fun u =>
    isDummy u || nodes.real u || !(decide (EPS < nodes.cost u))
  List.zipWith (fun sub pair => !(getFeasiblePath sub pair filterFunc fuel).isEmpty)
    subgraphs odPairs

/-- `util.check_solution`: returns `(sol_demand, sol_cost)` together with the
two warning conditions (warnings are modelled as returned Booleans).
`realCost` lists the `(real, cost)` node columns. -/
def checkSolution (realCost : List (Bool × ℚ)) (nodes : NodeTable)
    (subgraphs : List Digraph) (odPairs : List OdPairRow)
    (claimedDemand claimedCost : ℚ) (fuel : ℕ) : ℚ × ℚ × Bool × Bool :=
  let solCost := (((realCost.filter (·.1)).map (·.2)).foldl (· + ·) 0)
  let isCostAboveUpperBound := decide (claimedCost + EPS < solCost)
  -- the source tests `sol_cost < claimed_cost < EPS`, a chained comparison
  let costWarning := isCostAboveUpperBound ||
    (decide (solCost < claimedCost) && decide (claimedCost < EPS))
  let covered := checkPairCoverage nodes subgraphs odPairs fuel
  let solDemand := ((List.zipWith (fun (c : Bool) (pair : OdPairRow) =>
    if c then pair.demand else 0) covered odPairs).foldl (· + ·) 0)
  let isBelowLowerBound := decide (solDemand < claimedDemand - EPS)
  let demandWarning := isBelowLowerBound || decide (claimedDemand + EPS < solDemand)
  (solDemand, solCost, costWarning, demandWarning)

/-- C10 failing input: one built node of cost 5, `claimed_cost = 10`, no OD
pairs.  The verified cost 5 deviates from the claimed cost 10 by more than
`EPS`, yet no cost warning is logged: the chained comparison
`sol_cost < claimed_cost < EPS` in the source only fires when
`claimed_cost < EPS`, not when the verified cost is below the claimed cost by
more than `EPS`. -/
theorem c10_check_solution_no_warning :
    checkSolution [(true, 5)] ⟨fun _ => 0, fun _ => false⟩ [] [] 0 10 5 =
      (0, 5, false, false) ∧ EPS < |(5 : ℚ) - 10| := by
  constructor
  · norm_num [checkSolution, checkPairCoverage, EPS]
  · norm_num [EPS]

/-! ### Max-demand pre-acceptance callback
(`chalet/algo/mip/max_demand_pairs.py`, `_pre_check_int_sol`) -/

/-- The `for k in subgraph_indices` loop of `_pre_check_int_sol`.  The loop
body calls `util.get_path_attributes(subgraphs[k], k, od_pairs, sol_filter)`,
but the module `chalet.algo.util` defines no function named
`get_path_attributes` (the path oracle there is `get_feasible_path`), so the
call raises `AttributeError`; the remainder of the body (zeroing `y_k`,
resubmission) is unreachable, and `infeasible` can never become true. -/
def preCheckIntSolLoop (y demand : ℕ → ℚ) (obj bestObj : ℚ) (cutoff : ℚ)
    (infeasible : Bool) : List ℕ → Except String (Bool × Option ℚ)
  | [] => if infeasible then .ok (true, none) else .ok (false, some cutoff)
  | k :: rest =>
    if y k < 1 / 2 then preCheckIntSolLoop y demand obj bestObj cutoff infeasible rest
    else if obj < bestObj then .ok (true, none)
    else .error "AttributeError: module chalet.algo.util has no attribute get_path_attributes"

/-- `_pre_check_int_sol` of the max-demand model: `soltype`, the current
solution values `y` of the demand variables, the pair demands, the solver
attributes `mipobjval`/`mipbestobjval`, and the `cutoff` argument.  Returns
the callback's `(refuse, cutoff)` pair or the raised exception. -/
def preCheckIntSol (soltype : ℤ) (cutoff : ℚ) (subgraphIndices : List ℕ)
    (y demand : ℕ → ℚ) (mipObjVal mipBestObjVal : ℚ) : Except String (Bool × Option ℚ) :=
  if soltype = 0 then .ok (false, some cutoff)
  else
    let obj := (subgraphIndices.map (fun k => y k * demand k)).foldl (· + ·) 0
    let bestObj := max mipObjVal mipBestObjVal + EPS
    preCheckIntSolLoop y demand obj bestObj cutoff false subgraphIndices

/-- C3: on any candidate solution with `soltype ≠ 0` that selects at least one
pair (`y_0 = 1`, demand 5, objective 5 not below the best known 0), the
callback raises `AttributeError` instead of performing the claimed
project-and-resubmit repair: `util.get_path_attributes` does not exist. -/
theorem c3_pre_check_int_sol_raises :
    preCheckIntSol 1 0 [0] (fun _ => 1) (fun _ => 5) 0 0 =
      .error "AttributeError: module chalet.algo.util has no attribute get_path_attributes" := by
  norm_num [preCheckIntSol, preCheckIntSolLoop, EPS]

/-! ### Battery model (`chalet/common/battery_util.py`) and fuel-time
assignment (`chalet/preprocess/arcs.py`, `_add_fuel_time`) -/

/-- The charge-time value of the three-piece battery curve (the body of
`battery_util.charge_time` after the input check); `Real.sqrt` models
`np.sqrt`. -/
noncomputable def chargeVal (level maxPower capacity left right : ℝ) : ℝ :=
  -- `ref_factor = capacity / max_power * HOURS_TO_MINUTES` and
  -- `max_time = ref_factor * (2*left + (right-left) + 2*(1-right))`, inlined
  if 0 ≤ level ∧ level ≤ left then
    capacity / maxPower * 60 * (2 * Real.sqrt left) * Real.sqrt level
  else if left ≤ level ∧ level ≤ right then
    capacity / maxPower * 60 * (left + level)
  else
    capacity / maxPower * 60 * (2 * left + (right - left) + 2 * (1 - right)) -
      capacity / maxPower * 60 * (2 * Real.sqrt (1 - right) * Real.sqrt (1 - level))

/-- `battery_util.charge_time`; the `ValueError` raise is the `.error` case. -/
noncomputable def chargeTime (level maxPower capacity left right : ℝ) : Except String ℝ :=
  if level < 0 ∨ 1 < level then
    .error "Specified battery level must be in range [0,1]."
  else .ok (chargeVal level maxPower capacity left right)

/-- `battery_util.recharge_time`:
`charge_time(to_level) - charge_time(from_level)`. -/
noncomputable def rechargeTime (fromLevel toLevel maxPower capacity left right : ℝ) :
    Except String ℝ :=
  match chargeTime toLevel maxPower capacity left right,
      chargeTime fromLevel maxPower capacity left right with
  | .ok a, .ok b => .ok (a - b)
  | .error e, _ => .error e
  | .ok _, .error e => .error e

/-- The battery levels that `_add_fuel_time` passes to `charge_time` for one
arc (via `recharge_time`; `buffer = params.min_state`). -/
noncomputable def fuelLevels (p : Parameters) (typeOf : Int → NodeType) (a : RawArc) :
    List ℝ :=
  let buffer : ℝ := (p.minState : ℚ)
  if typeOf a.tailId = NodeType.STATION ∧ ¬typeOf a.headId = NodeType.SITE then
    [buffer + (a.distance : ℚ) / (p.truckRange : ℚ), buffer]
  else if typeOf a.tailId = NodeType.STATION ∧ typeOf a.headId = NodeType.SITE then
    [buffer + ((a.distance : ℚ) + (p.destRange : ℚ)) / (p.truckRange : ℚ), buffer]
  else []

/-- `_add_fuel_time` restricted to one arc: the `FUEL_TIME` value it assigns
(station-to-station and station-to-site use the charge-enough policy, all
other arcs get 0). -/
noncomputable def addFuelTime (p : Parameters) (typeOf : Int → NodeType) (a : RawArc) :
    Except String ℝ :=
  let buffer : ℝ := (p.minState : ℚ)
  if typeOf a.tailId = NodeType.STATION ∧ ¬typeOf a.headId = NodeType.SITE then
    rechargeTime buffer (buffer + (a.distance : ℚ) / (p.truckRange : ℚ))
      (p.chargerPower : ℚ) (p.batteryCapacity : ℚ) 0 0.8
  else if typeOf a.tailId = NodeType.STATION ∧ typeOf a.headId = NodeType.SITE then
    rechargeTime buffer (buffer + ((a.distance : ℚ) + (p.destRange : ℚ)) / (p.truckRange : ℚ))
      (p.chargerPower : ℚ) (p.batteryCapacity : ℚ) 0 0.8
  else .ok 0

/-- Monotonicity of the battery curve on `[0, 1]` for the default boundaries
`left = 0`, `right = 0.8`. -/
theorem chargeVal_mono (maxPower capacity : ℝ) (hpow : 0 < maxPower)
    (hcap : 0 ≤ capacity) (a b : ℝ) (ha : 0 ≤ a) (hab : a ≤ b) (hb : b ≤ 1) :
    chargeVal a maxPower capacity 0 0.8 ≤ chargeVal b maxPower capacity 0 0.8 := by
  have href : (0 : ℝ) ≤ capacity / maxPower * 60 := by positivity
  have hb0 : 0 ≤ b := le_trans ha hab
  have hsqrt15 : Real.sqrt (1 - 0.8) * Real.sqrt (1 - 0.8) = 1 - 0.8 :=
    Real.mul_self_sqrt (by norm_num)
  have key : ∀ x : ℝ, 0 ≤ x → x ≤ 1 → (0.8 : ℝ) < x →
      capacity / maxPower * 60 * 0.8 ≤ chargeVal x maxPower capacity 0 0.8 := by
    intro x hx0 hx1 hx8
    unfold chargeVal
    rw [if_neg (by push_neg; intro _; linarith), if_neg (by push_neg; intro _; linarith)]
    have hsle : Real.sqrt (1 - x) ≤ Real.sqrt (1 - 0.8) :=
      Real.sqrt_le_sqrt (by linarith)
    have hs2 : Real.sqrt (1 - 0.8) * Real.sqrt (1 - x) ≤ 1 - 0.8 := by
      calc Real.sqrt (1 - 0.8) * Real.sqrt (1 - x)
          ≤ Real.sqrt (1 - 0.8) * Real.sqrt (1 - 0.8) :=
            mul_le_mul_of_nonneg_left hsle (Real.sqrt_nonneg _)
        _ = 1 - 0.8 := hsqrt15
    have h3 : capacity / maxPower * 60 * (2 * Real.sqrt (1 - 0.8) * Real.sqrt (1 - x)) ≤
        capacity / maxPower * 60 * (2 * (1 - 0.8)) := by
      apply mul_le_mul_of_nonneg_left _ href
      calc 2 * Real.sqrt (1 - 0.8) * Real.sqrt (1 - x)
          = 2 * (Real.sqrt (1 - 0.8) * Real.sqrt (1 - x)) := by ring
        _ ≤ 2 * (1 - 0.8) := by linarith
    nlinarith
  have hval : ∀ x : ℝ, 0 ≤ x → x ≤ 0.8 →
      chargeVal x maxPower capacity 0 0.8 = capacity / maxPower * 60 * x := by
    intro x hx0 hx8
    unfold chargeVal
    by_cases hx : x ≤ 0
    · rw [if_pos ⟨hx0, hx⟩]
      have hx0' : x = 0 := le_antisymm hx hx0
      rw [hx0', Real.sqrt_zero]
      ring
    · rw [if_neg (by push_neg; intro _; linarith), if_pos ⟨hx0, hx8⟩]
      ring
  by_cases hb8 : b ≤ 0.8
  · rw [hval a ha (le_trans hab hb8), hval b hb0 hb8]
    exact mul_le_mul_of_nonneg_left hab href
  · push_neg at hb8
    by_cases ha8 : a ≤ 0.8
    · calc chargeVal a maxPower capacity 0 0.8 = capacity / maxPower * 60 * a := hval a ha ha8
        _ ≤ capacity / maxPower * 60 * 0.8 := mul_le_mul_of_nonneg_left ha8 href
        _ ≤ chargeVal b maxPower capacity 0 0.8 := key b hb0 hb hb8
    · push_neg at ha8
      unfold chargeVal
      rw [if_neg (by push_neg; intro _; linarith), if_neg (by push_neg; intro _; linarith),
        if_neg (by push_neg; intro _; linarith), if_neg (by push_neg; intro _; linarith)]
      have hsle : Real.sqrt (1 - b) ≤ Real.sqrt (1 - a) := Real.sqrt_le_sqrt (by linarith)
      have h2 : capacity / maxPower * 60 * (2 * Real.sqrt (1 - 0.8) * Real.sqrt (1 - b)) ≤
          capacity / maxPower * 60 * (2 * Real.sqrt (1 - 0.8) * Real.sqrt (1 - a)) := by
        apply mul_le_mul_of_nonneg_left _ href
        have hs0 : (0 : ℝ) ≤ 2 * Real.sqrt (1 - 0.8) := by positivity
        exact mul_le_mul_of_nonneg_left hsle hs0
      linarith

theorem rechargeTime_ok_nonneg (fl tl maxPower capacity : ℝ) (hpow : 0 < maxPower)
    (hcap : 0 ≤ capacity) (h0 : 0 ≤ fl) (h1 : fl ≤ tl) (h2 : tl ≤ 1) :
    rechargeTime fl tl maxPower capacity 0 0.8 =
      .ok (chargeVal tl maxPower capacity 0 0.8 - chargeVal fl maxPower capacity 0 0.8) ∧
    0 ≤ chargeVal tl maxPower capacity 0 0.8 - chargeVal fl maxPower capacity 0 0.8 := by
  constructor
  · unfold rechargeTime chargeTime
    rw [if_neg (by push_neg; constructor <;> linarith),
      if_neg (by push_neg; constructor <;> linarith)]
  · exact sub_nonneg.mpr (chargeVal_mono maxPower capacity hpow hcap fl tl h0 h1 h2)

/-- Distance bounds carried by any arc that survives the range filter. -/
theorem rangeFilterRemove_false_bounds (typeOf : Int → NodeType) (og dr tr md : ℚ)
    (a : RawArc) (h : rangeFilterRemove typeOf og dr tr md a = false) :
    a.distance ≤ tr ∧ (typeOf a.headId = NodeType.SITE → a.distance ≤ tr - dr) := by
  unfold rangeFilterRemove at h
  simp only [Bool.or_eq_false_iff, Bool.and_eq_false_iff, decide_eq_false_iff_not,
    Bool.not_eq_eq_eq_not, Bool.not_false, decide_eq_true_eq, not_lt] at h
  obtain ⟨⟨⟨⟨⟨h1, h2⟩, h3⟩, h4⟩, h5⟩, h6⟩ := h
  refine ⟨h2, fun hh => ?_⟩
  rcases h3 with h3 | h3
  · exact absurd hh h3
  · exact h3

/-- C8: for every arc that survives the range filter as called by the arc
preprocessor (`truck_range` argument bound to `safe_range`,
`min_dist = 0.2 * safe_range`, `dest_range = 0.5 * safe_range`,
`safety_margin ≥ 0`), the battery levels `_add_fuel_time` passes to
`charge_time` lie in `[0, 1]` — so the `ValueError` branch of `charge_time`
is unreachable — and the assigned `FUEL_TIME` is non-negative. -/
theorem c8_fuel_time_levels_safe (p : Parameters) (typeOf : Int → NodeType) (a : RawArc)
    (hR : 0 < p.truckRange) (hM : 0 ≤ p.safetyMargin) (hMR : p.safetyMargin ≤ p.truckRange)
    (hP : 0 < p.chargerPower) (hC : 0 ≤ p.batteryCapacity) (hd : 0 ≤ a.distance)
    (hsafe : p.safeRange = p.truckRange - p.safetyMargin)
    (hmin : p.minState = p.safetyMargin / p.truckRange)
    (hdest : p.destRange = 0.5 * p.safeRange)
    (hkeep : rangeFilterRemove typeOf p.origRange p.destRange p.safeRange
      (0.2 * p.safeRange) a = false) :
    (∀ lv ∈ fuelLevels p typeOf a, 0 ≤ lv ∧ lv ≤ 1) ∧
    ∃ t : ℝ, addFuelTime p typeOf a = .ok t ∧ 0 ≤ t := by
  have hbuff0 : 0 ≤ p.minState := by
    rw [hmin]; exact div_nonneg hM (le_of_lt hR)
  by_cases ht : typeOf a.tailId = NodeType.STATION
  · by_cases hh : typeOf a.headId = NodeType.SITE
    · -- station → site
      have hdrop : a.distance ≤ p.safeRange - p.destRange :=
        (rangeFilterRemove_false_bounds typeOf p.origRange p.destRange p.safeRange
          (0.2 * p.safeRange) a hkeep).2 hh
      have hto1 : p.minState + (a.distance + p.destRange) / p.truckRange ≤ 1 := by
        rw [hmin, div_add_div_same, div_le_one hR]
        have h1 : a.distance + p.destRange ≤ p.safeRange := by linarith
        rw [hsafe] at h1
        linarith
      have hto0 : p.minState ≤ p.minState + (a.distance + p.destRange) / p.truckRange := by
        have hdestnn : 0 ≤ p.destRange := by
          rw [hdest, hsafe]; linarith
        have : (0 : ℚ) ≤ (a.distance + p.destRange) / p.truckRange :=
          div_nonneg (by linarith) (le_of_lt hR)
        linarith
      have hlv : ∀ lv ∈ fuelLevels p typeOf a, 0 ≤ lv ∧ lv ≤ 1 := by
        intro lv hlv
        unfold fuelLevels at hlv
        rw [if_neg (by simp [ht, hh]), if_pos ⟨ht, hh⟩] at hlv
        simp only [List.mem_cons, List.mem_singleton, List.not_mem_nil, or_false] at hlv
        rcases hlv with rfl | rfl
        · constructor
          · exact_mod_cast le_trans hbuff0 hto0
          · exact_mod_cast hto1
        · constructor
          · exact_mod_cast hbuff0
          · exact_mod_cast le_trans hto0 hto1
      refine ⟨hlv, ?_⟩
      obtain ⟨hok, hnn⟩ := rechargeTime_ok_nonneg ((p.minState : ℚ) : ℝ)
        (((p.minState : ℚ) : ℝ) + (((a.distance : ℚ) : ℝ) + ((p.destRange : ℚ) : ℝ)) /
          ((p.truckRange : ℚ) : ℝ))
        ((p.chargerPower : ℚ) : ℝ) ((p.batteryCapacity : ℚ) : ℝ)
        (by exact_mod_cast hP) (by exact_mod_cast hC) (by exact_mod_cast hbuff0)
        (by exact_mod_cast hto0) (by exact_mod_cast hto1)
      refine ⟨_, ?_, hnn⟩
      unfold addFuelTime
      rw [if_neg (by simp [ht, hh]), if_pos ⟨ht, hh⟩]
      exact hok
    · -- station → station (head is not a site)
      have hdrop : a.distance ≤ p.safeRange :=
        (rangeFilterRemove_false_bounds typeOf p.origRange p.destRange p.safeRange
          (0.2 * p.safeRange) a hkeep).1
      have hto1 : p.minState + a.distance / p.truckRange ≤ 1 := by
        rw [hmin, div_add_div_same, div_le_one hR]
        rw [hsafe] at hdrop
        linarith
      have hto0 : p.minState ≤ p.minState + a.distance / p.truckRange := by
        have : (0 : ℚ) ≤ a.distance / p.truckRange := div_nonneg hd (le_of_lt hR)
        linarith
      have hlv : ∀ lv ∈ fuelLevels p typeOf a, 0 ≤ lv ∧ lv ≤ 1 := by
        intro lv hlv
        unfold fuelLevels at hlv
        rw [if_pos ⟨ht, hh⟩] at hlv
        simp only [List.mem_cons, List.mem_singleton, List.not_mem_nil, or_false] at hlv
        rcases hlv with rfl | rfl
        · constructor
          · exact_mod_cast le_trans hbuff0 hto0
          · exact_mod_cast hto1
        · constructor
          · exact_mod_cast hbuff0
          · exact_mod_cast le_trans hto0 hto1
      refine ⟨hlv, ?_⟩
      obtain ⟨hok, hnn⟩ := rechargeTime_ok_nonneg ((p.minState : ℚ) : ℝ)
        (((p.minState : ℚ) : ℝ) + ((a.distance : ℚ) : ℝ) / ((p.truckRange : ℚ) : ℝ))
        ((p.chargerPower : ℚ) : ℝ) ((p.batteryCapacity : ℚ) : ℝ)
        (by exact_mod_cast hP) (by exact_mod_cast hC) (by exact_mod_cast hbuff0)
        (by exact_mod_cast hto0) (by exact_mod_cast hto1)
      refine ⟨_, ?_, hnn⟩
      unfold addFuelTime
      rw [if_pos ⟨ht, hh⟩]
      exact hok
  · -- tail is not a station: fuel time 0, no charge_time call
    refine ⟨?_, 0, ?_, le_refl 0⟩
    · intro lv hlv
      unfold fuelLevels at hlv
      rw [if_neg (by simp [ht]), if_neg (by simp [ht])] at hlv
      exact absurd hlv (List.not_mem_nil lv)
    · unfold addFuelTime
      rw [if_neg (by simp [ht]), if_neg (by simp [ht])]

/-- C8 witness arc: station-to-station, distance 100 (within
`[0.2 * safe_range, safe_range] = [50, 250]`). -/
def witnessArcC8 : RawArc := ⟨10, 11, 100, 100⟩

/-- Witness for C8 at default parameters. -/
theorem c8_fuel_time_levels_safe_witness :
    ((0 : ℚ) < defaultParameters.truckRange ∧
      (0 : ℚ) ≤ defaultParameters.safetyMargin ∧
      defaultParameters.safetyMargin ≤ defaultParameters.truckRange ∧
      (0 : ℚ) < defaultParameters.chargerPower ∧
      (0 : ℚ) ≤ defaultParameters.batteryCapacity ∧
      (0 : ℚ) ≤ witnessArcC8.distance ∧
      defaultParameters.safeRange = defaultParameters.truckRange - defaultParameters.safetyMargin ∧
      defaultParameters.minState = defaultParameters.safetyMargin / defaultParameters.truckRange ∧
      defaultParameters.destRange = 0.5 * defaultParameters.safeRange ∧
      rangeFilterRemove (fun _ => NodeType.STATION) defaultParameters.origRange
        defaultParameters.destRange defaultParameters.safeRange
        (0.2 * defaultParameters.safeRange) witnessArcC8 = false) ∧
    ((∀ lv ∈ fuelLevels defaultParameters (fun _ => NodeType.STATION) witnessArcC8,
        0 ≤ lv ∧ lv ≤ 1) ∧
      ∃ t : ℝ, addFuelTime defaultParameters (fun _ => NodeType.STATION) witnessArcC8 =
        .ok t ∧ 0 ≤ t) :=
  ⟨⟨by norm_num [defaultParameters], by norm_num [defaultParameters],
    by norm_num [defaultParameters], by norm_num [defaultParameters],
    by norm_num [defaultParameters], by norm_num [witnessArcC8],
    by norm_num [defaultParameters], by norm_num [defaultParameters],
    by norm_num [defaultParameters],
    by norm_num [rangeFilterRemove, defaultParameters, witnessArcC8]; decide⟩,
    c8_fuel_time_levels_safe defaultParameters (fun _ => NodeType.STATION) witnessArcC8
      (by norm_num [defaultParameters]) (by norm_num [defaultParameters])
      (by norm_num [defaultParameters]) (by norm_num [defaultParameters])
      (by norm_num [defaultParameters]) (by norm_num [witnessArcC8])
      (by norm_num [defaultParameters]) (by norm_num [defaultParameters])
      (by norm_num [defaultParameters])
      (by norm_num [rangeFilterRemove, defaultParameters, witnessArcC8]; decide)⟩

/-! ### Per-pair subgraph builder (`chalet/algo/graph.py`) -/

/-- Predecessors of a node. -/
def Digraph.pred (g : Digraph) (v : Int) : List Int :=
  (g.inEdges v).map Edge.tail

/-- `nx.reverse_view`. -/
def Digraph.reverse (g : Digraph) : Digraph :=
  ⟨g.nodes, g.edges.map (fun e => ⟨e.head, e.tail, e.attr⟩)⟩

/-- Lookup in the `(tail, head) -> (time, distance)` `Hashmap`; `none` models
the `(inf, inf)` fallback sentinel. -/
def mapLookup (m : List ((Int × Int) × ℚ × ℚ)) (tail head : Int) : Option (ℚ × ℚ) :=
  (m.find? (fun p => p.1.1 == tail && p.1.2 == head)).map Prod.snd

/-- `graph._get_arcs_to_and_from_irrelevant_sites`: drop every arc incident to
a site other than the origin or the destination. -/
def getArcsToAndFromIrrelevantSites (typeOf : Int → NodeType) (arcs : List Edge)
    (orig dest : Int) : List Edge :=
  arcs.filter (fun e =>
    !((decide (typeOf e.tail = NodeType.SITE) && !(e.tail == orig)) ||
      (decide (typeOf e.head = NodeType.SITE) && !(e.head == dest))))

/-- `graph._filter_arcs_based_on_transit_time_lower_bounds`.  A missing map
entry is the `(inf, inf)` sentinel, for which both lower bounds are infinite
and the arc is dropped. -/
def filterArcsTransitTimeLB (timeDistMap : List ((Int × Int) × ℚ × ℚ))
    (subArcs : List Edge) (orig dest : Int) (truckRange fuelTimeBound maxTime maxRoadTime : ℚ) :
    List Edge :=
  subArcs.filter (fun e =>
    match mapLookup timeDistMap orig e.tail, mapLookup timeDistMap e.head dest with
    | some (t1, d1), some (t2, d2) =>
      let roadTime := t1 + e.attr.time + t2
      let distance := d1 + e.attr.distance + d2
      let totalTime := roadTime + e.attr.breakTime + distance * (fuelTimeBound / truckRange)
      decide (totalTime ≤ maxTime) && decide (roadTime ≤ maxRoadTime)
    | _, _ => false)

/-- Node list of `nx.from_pandas_edgelist`: arc endpoints in first-insertion
order. -/
def nodesFromEdges (es : List Edge) : List Int :=
  es.foldl (fun acc e =>
    let acc1 := if acc.contains e.tail then acc else acc ++ [e.tail]
    if acc1.contains e.head then acc1 else acc1 ++ [e.head]) []

/-- `nx.from_pandas_edgelist(..., create_using=nx.DiGraph)`: one edge per
`(tail, head)` key — a later row overwrites the attributes — and no node
attributes yet (cost 0 placeholder, overwritten by `setNodeCosts`). -/
def fromPandasEdgelist (es : List Edge) : Digraph :=
  ⟨(nodesFromEdges es).map (fun n => (n, 0)),
    es.foldl (fun acc e =>
      acc.filter (fun e' => !(e'.tail == e.tail && e'.head == e.head)) ++ [e]) []⟩

/-- Shortest-path length from `src` to `v` (`nx.single_source_dijkstra_path_length`
read through `.get(v)`; `none` when `v` is unreachable or absent). -/
def distTo (g : Digraph) (f : WFun) (src v : Int) : Option ℚ :=
  (shortestPath g src v f).map Prod.snd

/-- The two triangle filters of `_remove_redundant_nodes_and_edges`: remove
in-edges of successors of the origin not leaving the origin, then out-edges
of predecessors of the destination (of the already pruned graph) not entering
the destination. -/
def trianglePrune (subGraph : Digraph) (orig dest : Int) : Digraph :=
  let succOrig := subGraph.succ orig
  let g1 : Digraph := ⟨subGraph.nodes,
    subGraph.edges.filter (fun e => !(succOrig.contains e.head && !(e.tail == orig)))⟩
  let predDest := g1.pred dest
  ⟨g1.nodes, g1.edges.filter (fun e => !(predDest.contains e.tail && !(e.head == dest)))⟩

/-- `graph._remove_redundant_nodes_and_edges`. -/
def removeRedundantNodesAndEdges (subGraph : Digraph) (orig dest : Int)
    (maxRoadTime maxTime : ℚ) : Digraph :=
  let g2 := trianglePrune subGraph orig dest
  let roadFromOrig := fun u => distTo g2 arcRoadTime orig u
  let roadToDest := fun u => distTo g2.reverse arcRoadTime dest u
  let timeFromOrig := fun u => distTo g2 arcTime orig u
  let timeToDest := fun u => distTo g2.reverse arcTime dest u
  match roadFromOrig dest with
  | none => Digraph.empty
  | some rd =>
    if maxRoadTime < rd then Digraph.empty
    else
      match timeFromOrig dest with
      | none => Digraph.empty
      | some td =>
        if maxTime < td then Digraph.empty
        else
          ⟨g2.nodes, g2.edges.filter (fun e =>
            match roadFromOrig e.tail, roadToDest e.head,
                timeFromOrig e.tail, timeToDest e.head with
            | some ru, some rv, some tu, some tv =>
              !(decide (maxRoadTime < ru + rv + arcRoadTime e.tail e.head e.attr) ||
                decide (maxTime < tu + tv + arcTime e.tail e.head e.attr))
            | _, _, _, _ => false)⟩  -- a KeyError marks the edge redundant

/-- The one-pass isolated-node removal of `_create_subgraph` (removing a node
also removes its incident edges). -/
def removeIsolates (g : Digraph) (orig dest : Int) : Digraph :=
  let isolates := g.nodeIds.filter (fun n =>
    !(n == orig) && !(n == dest) && ((g.inEdges n).isEmpty || (g.outEdges n).isEmpty))
  ⟨g.nodes.filter (fun p => !isolates.contains p.1),
    g.edges.filter (fun e => !isolates.contains e.tail && !isolates.contains e.head)⟩

/-- `nx.set_node_attributes(sub_graph, nodes[COST].to_dict(), COST)`: attach
the global cost to every node of the subgraph. -/
def setNodeCosts (g : Digraph) (costTable : Int → ℚ) : Digraph :=
  ⟨g.nodes.map (fun p => (p.1, costTable p.1)), g.edges⟩

/-- One iteration of the loop of `graph._split_candidate_nodes` for `node`:
skip isolates, otherwise add the auxiliary node `-node` with cost 0, redirect
the outgoing arcs of `node` to start at `-node`, and add the arc
`(node, -node)` whose attributes (the keys of the first in-edge of `node`,
which carries the four standard columns) are all set to 0. -/
def splitOne (g : Digraph) (node : Int) : Digraph :=
  if (g.inEdges node).isEmpty || (g.outEdges node).isEmpty then g
  else
    let outNode := -node
    let outs := g.outEdges node
    let nodes1 := if g.nodeIds.contains outNode
      then g.nodes.map (fun p => if p.1 == outNode then (p.1, 0) else p)
      else g.nodes ++ [(outNode, 0)]
    ⟨nodes1,
      g.edges.filter (fun e => !(e.tail == node)) ++
        outs.map (fun e => ⟨outNode, e.head, e.attr⟩) ++ [⟨node, outNode, ArcAttr.zero⟩]⟩

/-- `graph._split_candidate_nodes`: the candidate list is computed on the
input graph, then each candidate is processed in order. -/
def splitCandidateNodes (g : Digraph) : Digraph :=
  (((g.nodes.filter (fun p => decide (0 < p.2))).map Prod.fst)).foldl splitOne g

/-- `graph._create_subgraph` up to (but excluding) the candidate-node split:
irrelevant-site removal, the transit-time lower-bound filter, graph
construction, the endpoint presence check, redundant node/edge removal, the
isolated-node pass and the cost attachment. -/
def presplitSubgraph (orig dest : Int) (maxTime maxRoadTime : ℚ) (arcs : List Edge)
    (typeOf : Int → NodeType) (costTable : Int → ℚ)
    (timeDistMap : List ((Int × Int) × ℚ × ℚ)) (truckRange fuelTimeBound : ℚ) : Digraph :=
  let subArcs := getArcsToAndFromIrrelevantSites typeOf arcs orig dest
  let subArcs2 := filterArcsTransitTimeLB timeDistMap subArcs orig dest truckRange
    fuelTimeBound maxTime maxRoadTime
  let subGraph := fromPandasEdgelist subArcs2
  if !(subGraph.nodeIds.contains orig) || !(subGraph.nodeIds.contains dest) then
    Digraph.empty
  else
    setNodeCosts
      (removeIsolates (removeRedundantNodesAndEdges subGraph orig dest maxRoadTime maxTime)
        orig dest)
      costTable

/-- `graph._create_subgraph` (the early empty return commutes with the final
split, which leaves an empty graph unchanged). -/
def createSubgraph (orig dest : Int) (maxTime maxRoadTime : ℚ) (arcs : List Edge)
    (typeOf : Int → NodeType) (costTable : Int → ℚ)
    (timeDistMap : List ((Int × Int) × ℚ × ℚ)) (truckRange fuelTimeBound : ℚ) : Digraph :=
  splitCandidateNodes
    (presplitSubgraph orig dest maxTime maxRoadTime arcs typeOf costTable timeDistMap
      truckRange fuelTimeBound)

/-- Adjacency relation of a graph. -/
def adjacent (g : Digraph) (u v : Int) : Prop :=
  ∃ e ∈ g.edges, e.tail = u ∧ e.head = v

/-- Existence of a directed path (of any length, including zero). -/
def HasPath (g : Digraph) (u v : Int) : Prop :=
  Relation.ReflTransGen (adjacent g) u v

/-! #### C5 counterexample input

Two node-disjoint routes `1 → 3 → 2` and `1 → 4 → 2` between the site pair
`(1, 2)` via stations `3` and `4`; bounds `max_road_time = 50`,
`max_time = 90`.  Route `1-3-2` meets the road-time bound (10) but not the
total-time bound (100); route `1-4-2` meets the total-time bound (62) but not
the road-time bound (60).  The lookup map carries faster direct connections
`(1,4)` and `(4,2)` of road time 20 (arcs of the original network that were
dropped by the arc preprocessor), so every arc passes the lower-bound filter.
The path-bound pruning then deletes all four arcs although origin and
destination stay connected through neither. -/

def cexArcsC5 : List Edge :=
  [⟨1, 3, ⟨5, 45, 0, 0⟩⟩, ⟨3, 2, ⟨5, 45, 0, 0⟩⟩, ⟨1, 4, ⟨30, 1, 0, 0⟩⟩, ⟨4, 2, ⟨30, 1, 0, 0⟩⟩]

def cexTypeC5 : Int → NodeType :=
  fun n => if n = 1 ∨ n = 2 then NodeType.SITE else NodeType.STATION

def cexMapC5 : List ((Int × Int) × ℚ × ℚ) :=
  [((1, 1), 0, 0), ((1, 3), 5, 0), ((3, 2), 5, 0), ((1, 4), 20, 0), ((4, 2), 20, 0),
    ((2, 2), 0, 0)]

/-- The graph built from the C5 arcs by `from_pandas_edgelist`. -/
def builtGraphC5 : Digraph := ⟨[(1, 0), (3, 0), (2, 0), (4, 0)], cexArcsC5⟩

/-- Its reverse view. -/
def builtGraphC5R : Digraph :=
  ⟨[(1, 0), (3, 0), (2, 0), (4, 0)],
    [⟨3, 1, ⟨5, 45, 0, 0⟩⟩, ⟨2, 3, ⟨5, 45, 0, 0⟩⟩, ⟨4, 1, ⟨30, 1, 0, 0⟩⟩, ⟨2, 4, ⟨30, 1, 0, 0⟩⟩]⟩

theorem builtGraphC5_rev : builtGraphC5.reverse = builtGraphC5R := by decide

theorem spC5_12 : simplePaths builtGraphC5 1 2 = [[1, 3, 2], [1, 4, 2]] := by decide
theorem spC5_11 : simplePaths builtGraphC5 1 1 = [[1]] := by decide
theorem spC5_13 : simplePaths builtGraphC5 1 3 = [[1, 3]] := by decide
theorem spC5_14 : simplePaths builtGraphC5 1 4 = [[1, 4]] := by decide
theorem spC5R_23 : simplePaths builtGraphC5R 2 3 = [[2, 3]] := by decide
theorem spC5R_22 : simplePaths builtGraphC5R 2 2 = [[2]] := by decide
theorem spC5R_24 : simplePaths builtGraphC5R 2 4 = [[2, 4]] := by decide

theorem eaC5_13 : builtGraphC5.edgeAttrD 1 3 = ⟨5, 45, 0, 0⟩ := by decide
theorem eaC5_32 : builtGraphC5.edgeAttrD 3 2 = ⟨5, 45, 0, 0⟩ := by decide
theorem eaC5_14 : builtGraphC5.edgeAttrD 1 4 = ⟨30, 1, 0, 0⟩ := by decide
theorem eaC5_42 : builtGraphC5.edgeAttrD 4 2 = ⟨30, 1, 0, 0⟩ := by decide
theorem eaC5R_23 : builtGraphC5R.edgeAttrD 2 3 = ⟨5, 45, 0, 0⟩ := by decide
theorem eaC5R_24 : builtGraphC5R.edgeAttrD 2 4 = ⟨30, 1, 0, 0⟩ := by decide

theorem dC5_road_12 : distTo builtGraphC5 arcRoadTime 1 2 = some 10 := by
  simp only [distTo, shortestPath, spC5_12, List.argmin, List.foldl, List.argAux]
  norm_num [pathCost, arcRoadTime, eaC5_13, eaC5_32, eaC5_14, eaC5_42]
theorem dC5_time_12 : distTo builtGraphC5 arcTime 1 2 = some 62 := by
  simp only [distTo, shortestPath, spC5_12, List.argmin, List.foldl, List.argAux]
  norm_num [pathCost, arcTime, eaC5_13, eaC5_32, eaC5_14, eaC5_42]
theorem dC5_road_11 : distTo builtGraphC5 arcRoadTime 1 1 = some 0 := by
  simp only [distTo, shortestPath, spC5_11, List.argmin, List.foldl, List.argAux]
  norm_num [pathCost]
theorem dC5_road_13 : distTo builtGraphC5 arcRoadTime 1 3 = some 5 := by
  simp only [distTo, shortestPath, spC5_13, List.argmin, List.foldl, List.argAux]
  norm_num [pathCost, arcRoadTime, eaC5_13]
theorem dC5_road_14 : distTo builtGraphC5 arcRoadTime 1 4 = some 30 := by
  simp only [distTo, shortestPath, spC5_14, List.argmin, List.foldl, List.argAux]
  norm_num [pathCost, arcRoadTime, eaC5_14]
theorem dC5_time_11 : distTo builtGraphC5 arcTime 1 1 = some 0 := by
  simp only [distTo, shortestPath, spC5_11, List.argmin, List.foldl, List.argAux]
  norm_num [pathCost]
theorem dC5_time_13 : distTo builtGraphC5 arcTime 1 3 = some 50 := by
  simp only [distTo, shortestPath, spC5_13, List.argmin, List.foldl, List.argAux]
  norm_num [pathCost, arcTime, eaC5_13]
theorem dC5_time_14 : distTo builtGraphC5 arcTime 1 4 = some 31 := by
  simp only [distTo, shortestPath, spC5_14, List.argmin, List.foldl, List.argAux]
  norm_num [pathCost, arcTime, eaC5_14]
theorem dC5R_road_23 : distTo builtGraphC5R arcRoadTime 2 3 = some 5 := by
  simp only [distTo, shortestPath, spC5R_23, List.argmin, List.foldl, List.argAux]
  norm_num [pathCost, arcRoadTime, eaC5R_23]
theorem dC5R_road_22 : distTo builtGraphC5R arcRoadTime 2 2 = some 0 := by
  simp only [distTo, shortestPath, spC5R_22, List.argmin, List.foldl, List.argAux]
  norm_num [pathCost]
theorem dC5R_road_24 : distTo builtGraphC5R arcRoadTime 2 4 = some 30 := by
  simp only [distTo, shortestPath, spC5R_24, List.argmin, List.foldl, List.argAux]
  norm_num [pathCost, arcRoadTime, eaC5R_24]
theorem dC5R_time_23 : distTo builtGraphC5R arcTime 2 3 = some 50 := by
  simp only [distTo, shortestPath, spC5R_23, List.argmin, List.foldl, List.argAux]
  norm_num [pathCost, arcTime, eaC5R_23]
theorem dC5R_time_22 : distTo builtGraphC5R arcTime 2 2 = some 0 := by
  simp only [distTo, shortestPath, spC5R_22, List.argmin, List.foldl, List.argAux]
  norm_num [pathCost]
theorem dC5R_time_24 : distTo builtGraphC5R arcTime 2 4 = some 31 := by
  simp only [distTo, shortestPath, spC5R_24, List.argmin, List.foldl, List.argAux]
  norm_num [pathCost, arcTime, eaC5R_24]

theorem triC5 : trianglePrune builtGraphC5 1 2 = builtGraphC5 := by decide
theorem edgesC5 : builtGraphC5.edges = cexArcsC5 := by decide
theorem nodesC5 : builtGraphC5.nodes = [(1, 0), (3, 0), (2, 0), (4, 0)] := by decide

/-- The path-bound pruning deletes every arc of the C5 graph. -/
theorem rrC5 : removeRedundantNodesAndEdges builtGraphC5 1 2 50 90 =
    ⟨[(1, 0), (3, 0), (2, 0), (4, 0)], []⟩ := by
  simp only [removeRedundantNodesAndEdges, triC5, builtGraphC5_rev, dC5_road_12,
    dC5_time_12]
  norm_num [edgesC5, nodesC5, cexArcsC5, List.filter, dC5_road_11, dC5_road_13,
    dC5_road_14, dC5_time_11, dC5_time_13, dC5_time_14, dC5R_road_23, dC5R_road_22,
    dC5R_road_24, dC5R_time_23, dC5R_time_22, dC5R_time_24, arcRoadTime, arcTime]

/-- The subgraph the builder returns on the C5 input. -/
def cexSubgraphC5 : Digraph := ⟨[(1, 0), (2, 0)], []⟩

theorem createSubgraphC5_eval :
    createSubgraph 1 2 90 50 cexArcsC5 cexTypeC5 (fun _ => 0) cexMapC5 300 10 =
      cexSubgraphC5 := by
  have h1 : getArcsToAndFromIrrelevantSites cexTypeC5 cexArcsC5 1 2 = cexArcsC5 := by
    decide
  have m11 : mapLookup cexMapC5 1 1 = some (0, 0) := by decide
  have m13 : mapLookup cexMapC5 1 3 = some (5, 0) := by decide
  have m14 : mapLookup cexMapC5 1 4 = some (20, 0) := by decide
  have m32 : mapLookup cexMapC5 3 2 = some (5, 0) := by decide
  have m42 : mapLookup cexMapC5 4 2 = some (20, 0) := by decide
  have m22 : mapLookup cexMapC5 2 2 = some (0, 0) := by decide
  have h2 : filterArcsTransitTimeLB cexMapC5 cexArcsC5 1 2 300 10 90 50 = cexArcsC5 := by
    norm_num [filterArcsTransitTimeLB, cexArcsC5, List.filter, m11, m13, m14, m32,
      m42, m22]
  have h3 : fromPandasEdgelist cexArcsC5 = builtGraphC5 := by decide
  unfold createSubgraph presplitSubgraph
  simp only [h1, h2, h3]
  rw [if_neg (by decide)]
  rw [rrC5]
  decide

/-- C5 counterexample: the builder's output on the input above is the
non-empty graph on nodes `{1, 2}` with no arcs — it is not the empty graph,
yet it has no directed path from the origin 1 to the destination 2. -/
theorem c5_subgraph_counterexample :
    ¬(createSubgraph 1 2 90 50 cexArcsC5 cexTypeC5 (fun _ => 0) cexMapC5 300 10 =
        Digraph.empty ∨
      (1 ∈ (createSubgraph 1 2 90 50 cexArcsC5 cexTypeC5 (fun _ => 0) cexMapC5 300 10).nodeIds ∧
       2 ∈ (createSubgraph 1 2 90 50 cexArcsC5 cexTypeC5 (fun _ => 0) cexMapC5 300 10).nodeIds ∧
       HasPath (createSubgraph 1 2 90 50 cexArcsC5 cexTypeC5 (fun _ => 0) cexMapC5 300 10)
         1 2)) := by
  rw [createSubgraphC5_eval]
  rintro (h | ⟨-, -, hp⟩)
  · exact absurd h (by decide)
  · rcases Relation.ReflTransGen.cases_head hp with heq | ⟨c, hadj, -⟩
    · exact absurd heq (by decide)
    · obtain ⟨e, he, -⟩ := hadj
      exact absurd he (List.not_mem_nil e)

/-! #### C5 amended: the builder's output is empty or contains both endpoints -/

theorem removeRedundant_nodes_or_empty (g : Digraph) (o d : Int) (maxRoadTime maxTime : ℚ) :
    removeRedundantNodesAndEdges g o d maxRoadTime maxTime = Digraph.empty ∨
    (removeRedundantNodesAndEdges g o d maxRoadTime maxTime).nodes = g.nodes := by
  unfold removeRedundantNodesAndEdges
  dsimp only
  split
  · exact Or.inl rfl
  · split
    · exact Or.inl rfl
    · split
      · exact Or.inl rfl
      · split
        · exact Or.inl rfl
        · exact Or.inr rfl

theorem removeIsolates_nodeIds_mem (g : Digraph) (o d n : Int) (hn : n ∈ g.nodeIds)
    (hod : n = o ∨ n = d) : n ∈ (removeIsolates g o d).nodeIds := by
  unfold removeIsolates Digraph.nodeIds at *
  obtain ⟨p, hp, hfst⟩ := List.mem_map.mp hn
  refine List.mem_map.mpr ⟨p, List.mem_filter.mpr ⟨hp, ?_⟩, hfst⟩
  rw [Bool.not_eq_true']
  rw [← Bool.not_eq_true]
  intro hcont
  have hmem := List.mem_filter.mp (List.elem_iff.mp hcont)
  simp only [Bool.and_eq_true, Bool.not_eq_true', beq_eq_false_iff_ne] at hmem
  rcases hod with rfl | rfl
  · exact hmem.2.1.1 hfst
  · exact hmem.2.1.2 hfst

theorem setNodeCosts_nodeIds (g : Digraph) (costTable : Int → ℚ) :
    (setNodeCosts g costTable).nodeIds = g.nodeIds := by
  unfold setNodeCosts Digraph.nodeIds
  simp only [List.map_map]
  rfl

theorem splitOne_nodeIds_sub (g : Digraph) (v : Int) :
    g.nodeIds ⊆ (splitOne g v).nodeIds := by
  unfold splitOne
  split
  · exact fun x hx => hx
  · intro x hx
    unfold Digraph.nodeIds at *
    simp only
    split
    · rw [List.map_map]
      have heq : (Prod.fst ∘ fun p : Int × ℚ => if p.1 == -v then (p.1, (0 : ℚ)) else p) =
          Prod.fst := by
        funext p
        by_cases h : p.1 = -v <;> simp [h]
      rw [heq]
      exact hx
    · rw [List.map_append]
      exact List.mem_append_left _ hx

theorem splitCandidateNodes_nodeIds_sub (g : Digraph) :
    g.nodeIds ⊆ (splitCandidateNodes g).nodeIds := by
  unfold splitCandidateNodes
  generalize ((g.nodes.filter (fun p => decide (0 < p.2))).map Prod.fst) = cs
  induction cs generalizing g with
  | nil => exact fun x hx => hx
  | cons c cs ih =>
    rw [List.foldl_cons]
    exact fun x hx => ih (splitOne g c) (splitOne_nodeIds_sub g c hx)

/-- C5 amended: every subgraph returned by the per-pair subgraph builder is
either the empty graph or contains both the origin and the destination (the
counterexample above shows the connectivity part of the claim fails). -/
theorem c5_subgraph_empty_or_contains_endpoints (orig dest : Int) (maxTime maxRoadTime : ℚ)
    (arcs : List Edge) (typeOf : Int → NodeType) (costTable : Int → ℚ)
    (timeDistMap : List ((Int × Int) × ℚ × ℚ)) (truckRange fuelTimeBound : ℚ) :
    createSubgraph orig dest maxTime maxRoadTime arcs typeOf costTable timeDistMap
      truckRange fuelTimeBound = Digraph.empty ∨
    (orig ∈ (createSubgraph orig dest maxTime maxRoadTime arcs typeOf costTable timeDistMap
        truckRange fuelTimeBound).nodeIds ∧
     dest ∈ (createSubgraph orig dest maxTime maxRoadTime arcs typeOf costTable timeDistMap
        truckRange fuelTimeBound).nodeIds) := by
  unfold createSubgraph presplitSubgraph
  dsimp only
  split
  · exact Or.inl rfl
  · rename_i hcond
    simp only [Bool.or_eq_true, Bool.not_eq_true', not_or, Bool.not_eq_false] at hcond
    obtain ⟨ho, hd⟩ := hcond
    have ho' := List.elem_iff.mp ho
    have hd' := List.elem_iff.mp hd
    set H0 := fromPandasEdgelist (filterArcsTransitTimeLB timeDistMap
      (getArcsToAndFromIrrelevantSites typeOf arcs orig dest) orig dest truckRange
      fuelTimeBound maxTime maxRoadTime) with hH0
    rcases removeRedundant_nodes_or_empty H0 orig dest maxRoadTime maxTime with hrr | hrr
    · rw [hrr]
      exact Or.inl rfl
    · right
      have hrrid : (removeRedundantNodesAndEdges H0 orig dest maxRoadTime maxTime).nodeIds =
          H0.nodeIds := by
        unfold Digraph.nodeIds
        rw [hrr]
      constructor
      · apply splitCandidateNodes_nodeIds_sub
        rw [setNodeCosts_nodeIds]
        exact removeIsolates_nodeIds_mem _ orig dest orig (hrrid ▸ ho') (Or.inl rfl)
      · apply splitCandidateNodes_nodeIds_sub
        rw [setNodeCosts_nodeIds]
        exact removeIsolates_nodeIds_mem _ orig dest dest (hrrid ▸ hd') (Or.inr rfl)

/-! #### C2: the candidate-node split invariant -/

theorem countP_partition {α : Type} (l : List α) (p q : α → Bool) :
    l.countP p = (l.countP fun a => q a && p a) + (l.countP fun a => !q a && p a) := by
  induction l with
  | nil => simp
  | cons a l ih =>
    by_cases hq : q a <;> by_cases hp : p a <;>
      simp [List.countP_cons, hq, hp, ih] <;> omega

/-- A split step of one candidate does not change the out-edges of any other
node (neither the remaining candidates nor already created auxiliaries). -/
theorem splitOne_outEdges_other (g : Digraph) (v u : Int) (h1 : u ≠ v) (h2 : u ≠ -v) :
    (splitOne g v).outEdges u = g.outEdges u := by
  unfold splitOne
  dsimp only
  split
  · rfl
  · unfold Digraph.outEdges
    simp only
    rw [List.filter_append, List.filter_append]
    have hpart1 : (g.edges.filter (fun e => !(e.tail == v))).filter (fun e => e.tail == u) =
        g.edges.filter (fun e => e.tail == u) := by
      rw [List.filter_filter]
      apply List.filter_congr
      intro e _
      cases he : (e.tail == u) with
      | true =>
        have : e.tail = u := by exact_mod_cast beq_iff_eq.mp he
        simp [this, h1.symm]
        exact h1
      | false => simp
    have hpart2 : ((g.edges.filter (fun e => e.tail == v)).map
        (fun e => (⟨-v, e.head, e.attr⟩ : Edge))).filter (fun e => e.tail == u) = [] := by
      apply List.filter_eq_nil_iff.mpr
      intro e he
      obtain ⟨e', _, rfl⟩ := List.mem_map.mp he
      simp [Ne.symm h2]
    have hpart3 : ([(⟨v, -v, ArcAttr.zero⟩ : Edge)]).filter (fun e => e.tail == u) = [] := by
      have hvu : (v == u) = false := beq_eq_false_iff_ne.mpr (Ne.symm h1)
      simp [List.filter, hvu]
    unfold Digraph.outEdges at hpart2
    rw [hpart1, hpart2, hpart3]
    simp

/-- A split step of one candidate preserves the number of in-edges of every
node other than the new auxiliary (the redirected arcs keep their heads). -/
theorem countP_congr_mem {α : Type} (l : List α) (p q : α → Bool)
    (h : ∀ a ∈ l, p a = q a) : l.countP p = l.countP q := by
  rw [List.countP_eq_length_filter, List.countP_eq_length_filter, List.filter_congr h]

theorem splitOne_inEdges_length (g : Digraph) (v u : Int) (h2 : u ≠ -v) :
    ((splitOne g v).inEdges u).length = (g.inEdges u).length := by
  unfold splitOne
  dsimp only
  split
  · rfl
  · unfold Digraph.inEdges Digraph.outEdges
    simp only
    rw [← List.countP_eq_length_filter, ← List.countP_eq_length_filter,
      List.countP_append, List.countP_append]
    have hC : List.countP (fun e => e.head == u) [(⟨v, -v, ArcAttr.zero⟩ : Edge)] = 0 := by
      simp [List.countP_cons, Ne.symm h2]
    have hB : List.countP (fun e => e.head == u)
        ((g.edges.filter (fun e => e.tail == v)).map
          (fun e => (⟨-v, e.head, e.attr⟩ : Edge))) =
        List.countP (fun e => (e.head == u) && (e.tail == v)) g.edges := by
      rw [List.countP_map]
      exact List.countP_filter _ _ _
    have hA : List.countP (fun e => e.head == u)
        (g.edges.filter (fun e => !(e.tail == v))) =
        List.countP (fun e => (e.head == u) && !(e.tail == v)) g.edges :=
      List.countP_filter _ _ _
    rw [hA, hB, hC]
    have hsplit := countP_partition g.edges (fun e => e.head == u) (fun e => e.tail == v)
    have e1 : List.countP (fun e => (e.head == u) && !(e.tail == v)) g.edges =
        List.countP (fun e => !(e.tail == v) && (e.head == u)) g.edges :=
      countP_congr_mem _ _ _ (fun a _ => Bool.and_comm _ _)
    have e2 : List.countP (fun e => (e.head == u) && (e.tail == v)) g.edges =
        List.countP (fun e => (e.tail == v) && (e.head == u)) g.edges :=
      countP_congr_mem _ _ _ (fun a _ => Bool.and_comm _ _)
    omega

/-- Every node entry after a split step is an original entry or the new
auxiliary entry `(-v, 0)`. -/
theorem splitOne_nodes_mem (g : Digraph) (v : Int) {x : Int} {c : ℚ}
    (h : (x, c) ∈ (splitOne g v).nodes) : (x, c) ∈ g.nodes ∨ (x = -v ∧ c = 0) := by
  unfold splitOne at h
  dsimp only at h
  split at h
  · exact Or.inl h
  · split at h
    · obtain ⟨p, hp, heq⟩ := List.mem_map.mp h
      by_cases hpv : (p.1 == -v) = true
      · rw [if_pos hpv] at heq
        have hx : x = p.1 := (Prod.mk.injEq _ _ _ _ ▸ heq).1.symm
        have hc : c = 0 := (Prod.mk.injEq _ _ _ _ ▸ heq).2.symm
        exact Or.inr ⟨hx.trans (beq_iff_eq.mp hpv), hc⟩
      · rw [if_neg hpv] at heq
        exact Or.inl (heq ▸ hp)
    · rcases List.mem_append.mp h with h' | h'
      · exact Or.inl h'
      · right
        have : ((-v : Int), (0 : ℚ)) = (x, c) := (List.mem_singleton.mp h').symm
        exact ⟨(Prod.mk.injEq _ _ _ _ ▸ this).1.symm, (Prod.mk.injEq _ _ _ _ ▸ this).2.symm⟩

/-- Node entries of cost 0 survive every split step. -/
theorem splitOne_nodes_zero_mem (g : Digraph) (v x : Int)
    (h : (x, (0 : ℚ)) ∈ g.nodes) : (x, (0 : ℚ)) ∈ (splitOne g v).nodes := by
  unfold splitOne
  dsimp only
  split
  · exact h
  · split
    · refine List.mem_map.mpr ⟨(x, 0), h, ?_⟩
      split <;> rfl
    · exact List.mem_append_left _ h

/-- Node entries whose id is not the new auxiliary survive a split step. -/
theorem splitOne_nodes_other_mem (g : Digraph) (v : Int) {x : Int} {c : ℚ}
    (hx : x ≠ -v) (h : (x, c) ∈ g.nodes) : (x, c) ∈ (splitOne g v).nodes := by
  unfold splitOne
  dsimp only
  split
  · exact h
  · split
    · refine List.mem_map.mpr ⟨(x, c), h, ?_⟩
      rw [if_neg (by simpa using hx)]
    · exact List.mem_append_left _ h

/-- The effect of a split step on its own candidate, when the candidate is
positive, non-isolated, and its auxiliary has no outgoing arcs yet. -/
theorem splitOne_action (g : Digraph) (v : Int) (hv : 0 < v)
    (hin : g.inEdges v ≠ []) (hout : g.outEdges v ≠ [])
    (hneg : g.outEdges (-v) = []) :
    (splitOne g v).outEdges v = [⟨v, -v, ArcAttr.zero⟩] ∧
    (-v, (0 : ℚ)) ∈ (splitOne g v).nodes ∧
    (splitOne g v).outEdges (-v) =
      (g.outEdges v).map (fun e => ⟨-v, e.head, e.attr⟩) := by
  have hcond : ¬(((g.inEdges v).isEmpty || (g.outEdges v).isEmpty) = true) := by
    simp only [Bool.or_eq_true, List.isEmpty_iff]
    rintro (h | h)
    · exact hin h
    · exact hout h
  have hnegtail : ∀ e ∈ g.edges, ¬((e.tail == -v) = true) := by
    have := List.filter_eq_nil_iff.mp hneg
    exact this
  refine ⟨?_, ?_, ?_⟩
  · unfold splitOne
    dsimp only
    rw [if_neg hcond]
    unfold Digraph.outEdges
    simp only
    rw [List.filter_append, List.filter_append]
    have p1 : (g.edges.filter (fun e => !(e.tail == v))).filter (fun e => e.tail == v) = [] := by
      rw [List.filter_filter]
      apply List.filter_eq_nil_iff.mpr
      intro e _
      cases h : (e.tail == v) <;> simp [h]
    have p2 : ((g.edges.filter (fun e => e.tail == v)).map
        (fun e => (⟨-v, e.head, e.attr⟩ : Edge))).filter (fun e => e.tail == v) = [] := by
      apply List.filter_eq_nil_iff.mpr
      intro e he
      obtain ⟨e', _, rfl⟩ := List.mem_map.mp he
      simp only
      have : (-v : Int) ≠ v := by omega
      simpa using this
    have p3 : ([(⟨v, -v, ArcAttr.zero⟩ : Edge)]).filter (fun e => e.tail == v) =
        [⟨v, -v, ArcAttr.zero⟩] := by
      simp [List.filter]
    unfold Digraph.outEdges at p2
    rw [p1, p2, p3]
    simp
  · unfold splitOne
    dsimp only
    rw [if_neg hcond]
    split
    · rename_i hcont
      obtain ⟨p, hp, hfst⟩ := List.mem_map.mp (List.elem_iff.mp hcont)
      refine List.mem_map.mpr ⟨p, hp, ?_⟩
      rw [if_pos (beq_iff_eq.mpr hfst)]
      rw [hfst]
    · exact List.mem_append_right _ (by simp)
  · unfold splitOne
    dsimp only
    rw [if_neg hcond]
    unfold Digraph.outEdges
    simp only
    rw [List.filter_append, List.filter_append]
    have p1 : (g.edges.filter (fun e => !(e.tail == v))).filter (fun e => e.tail == -v) = [] := by
      rw [List.filter_filter]
      apply List.filter_eq_nil_iff.mpr
      intro e he
      simp only [Bool.and_eq_true, decide_eq_true_eq, not_and]
      intro habs
      exact absurd habs (hnegtail e he)
    have p2 : ((g.edges.filter (fun e => e.tail == v)).map
        (fun e => (⟨-v, e.head, e.attr⟩ : Edge))).filter (fun e => e.tail == -v) =
        (g.edges.filter (fun e => e.tail == v)).map
          (fun e => (⟨-v, e.head, e.attr⟩ : Edge)) := by
      apply List.filter_eq_self.mpr
      intro e he
      obtain ⟨e', _, rfl⟩ := List.mem_map.mp he
      simp
    have p3 : ([(⟨v, -v, ArcAttr.zero⟩ : Edge)]).filter (fun e => e.tail == -v) = [] := by
      have : (v == -v) = false := beq_eq_false_iff_ne.mpr (by omega)
      simp [List.filter, this]
    unfold Digraph.outEdges at p2
    rw [p1, p2, p3]
    simp

theorem foldl_splitOne_outEdges (cs : List Int) (u : Int)
    (hcs : ∀ v ∈ cs, u ≠ v ∧ u ≠ -v) :
    ∀ g : Digraph, (cs.foldl splitOne g).outEdges u = g.outEdges u := by
  induction cs with
  | nil => intro g; rfl
  | cons c cs ih =>
    intro g
    rw [List.foldl_cons]
    rw [ih (fun v hv => hcs v (List.mem_cons_of_mem c hv))]
    exact splitOne_outEdges_other g c u (hcs c (List.mem_cons_self c cs)).1
      (hcs c (List.mem_cons_self c cs)).2

theorem foldl_splitOne_inEdges_length (cs : List Int) (u : Int)
    (hcs : ∀ v ∈ cs, u ≠ -v) :
    ∀ g : Digraph, ((cs.foldl splitOne g).inEdges u).length = (g.inEdges u).length := by
  induction cs with
  | nil => intro g; rfl
  | cons c cs ih =>
    intro g
    rw [List.foldl_cons]
    rw [ih (fun v hv => hcs v (List.mem_cons_of_mem c hv))]
    exact splitOne_inEdges_length g c u (hcs c (List.mem_cons_self c cs))

theorem foldl_splitOne_nodes_mem (cs : List Int) {x : Int} {c : ℚ} :
    ∀ g : Digraph, (x, c) ∈ (cs.foldl splitOne g).nodes →
    (x, c) ∈ g.nodes ∨ ∃ v ∈ cs, x = -v ∧ c = 0 := by
  induction cs with
  | nil => intro g h; exact Or.inl h
  | cons w cs ih =>
    intro g h
    rw [List.foldl_cons] at h
    rcases ih (splitOne g w) h with h' | ⟨v, hv, hx⟩
    · rcases splitOne_nodes_mem g w h' with h'' | h''
      · exact Or.inl h''
      · exact Or.inr ⟨w, List.mem_cons_self w cs, h''⟩
    · exact Or.inr ⟨v, List.mem_cons_of_mem w hv, hx⟩

theorem foldl_splitOne_nodes_zero (cs : List Int) (x : Int) :
    ∀ g : Digraph, (x, (0 : ℚ)) ∈ g.nodes → (x, (0 : ℚ)) ∈ (cs.foldl splitOne g).nodes := by
  induction cs with
  | nil => intro g h; exact h
  | cons c cs ih =>
    intro g h
    rw [List.foldl_cons]
    exact ih (splitOne g c) (splitOne_nodes_zero_mem g c x h)

/-- The C2 invariant stated for `splitCandidateNodes` over any graph with
positive, duplicate-free node ids and positive edge tails (the candidate
list is the one computed by the source, from the input graph). -/
theorem splitCandidateNodes_spec (H : Digraph)
    (hpos : ∀ n ∈ H.nodeIds, 0 < n) (hnodup : H.nodeIds.Nodup)
    (hedge : ∀ e ∈ H.edges, 0 < e.tail) :
    ∀ u : Int, ∀ cu : ℚ, (u, cu) ∈ (splitCandidateNodes H).nodes → 0 < cu →
    (splitCandidateNodes H).inEdges u ≠ [] → (splitCandidateNodes H).outEdges u ≠ [] →
    (splitCandidateNodes H).outEdges u = [⟨u, -u, ArcAttr.zero⟩] ∧
    (-u, (0 : ℚ)) ∈ (splitCandidateNodes H).nodes ∧
    (splitCandidateNodes H).outEdges (-u) =
      (H.outEdges u).map (fun e => ⟨-u, e.head, e.attr⟩) := by
  intro u cu hmem hcu hinG houtG
  have hGdef : splitCandidateNodes H =
      ((H.nodes.filter (fun p => decide (0 < p.2))).map Prod.fst).foldl splitOne H := rfl
  set cs := (H.nodes.filter (fun p => decide (0 < p.2))).map Prod.fst with hcs
  -- facts about the candidate list
  have hcssub : ∀ v ∈ cs, v ∈ H.nodeIds := by
    intro v hv
    obtain ⟨p, hp, hfst⟩ := List.mem_map.mp hv
    exact hfst ▸ List.mem_map.mpr ⟨p, (List.mem_filter.mp hp).1, rfl⟩
  have hcspos : ∀ v ∈ cs, 0 < v := fun v hv => hpos v (hcssub v hv)
  have hcsnodup : cs.Nodup := by
    apply List.Nodup.sublist _ hnodup
    exact List.Sublist.map Prod.fst (List.filter_sublist _)
  -- the split node is an original candidate
  have hmemH : (u, cu) ∈ H.nodes := by
    rw [hGdef] at hmem
    rcases foldl_splitOne_nodes_mem cs H hmem with h | ⟨v, hv, -, hc0⟩
    · exact h
    · exact absurd (hc0 ▸ hcu) (lt_irrefl 0)
  have hupos : 0 < u := hpos u (List.mem_map.mpr ⟨(u, cu), hmemH, rfl⟩)
  have hucs : u ∈ cs := by
    exact List.mem_map.mpr ⟨(u, cu), List.mem_filter.mpr ⟨hmemH, by simpa using hcu⟩, rfl⟩
  obtain ⟨cs1, cs2, hsplit⟩ := List.mem_iff_append.mp hucs
  have hnodup' := hsplit ▸ hcsnodup
  have hu1 : u ∉ cs1 := by
    intro habs
    exact (List.disjoint_of_nodup_append hnodup' habs) (List.mem_cons_self u cs2)
  have hu2 : u ∉ cs2 := by
    have := (List.nodup_append.mp hnodup').2.1
    exact (List.nodup_cons.mp this).1
  have hpos1 : ∀ v ∈ cs1, 0 < v := fun v hv => hcspos v (hsplit ▸ List.mem_append_left _ hv)
  have hpos2 : ∀ v ∈ cs2, 0 < v := fun v hv =>
    hcspos v (hsplit ▸ List.mem_append_right _ (List.mem_cons_of_mem u hv))
  -- decompose the fold
  have hGeq : splitCandidateNodes H =
      cs2.foldl splitOne (splitOne (cs1.foldl splitOne H) u) := by
    rw [hGdef, hsplit, List.foldl_append, List.foldl_cons]
  set G1 := cs1.foldl splitOne H with hG1
  -- state of u just before its own turn
  have hside1 : ∀ v ∈ cs1, u ≠ v ∧ u ≠ -v := by
    intro v hv
    exact ⟨fun habs => hu1 (habs ▸ hv), by have := hpos1 v hv; omega⟩
  have hout1 : G1.outEdges u = H.outEdges u := foldl_splitOne_outEdges cs1 u hside1 H
  have hin1 : (G1.inEdges u).length = (H.inEdges u).length :=
    foldl_splitOne_inEdges_length cs1 u
      (fun v hv => by have := hpos1 v hv; have := hupos; omega) H
  have hneg1 : G1.outEdges (-u) = [] := by
    have hH : H.outEdges (-u) = [] := by
      apply List.filter_eq_nil_iff.mpr
      intro e he
      have := hedge e he
      simp only [beq_iff_eq]
      omega
    rw [foldl_splitOne_outEdges cs1 (-u) (fun v hv => ?_) H]
    · exact hH
    · have h1 := hpos1 v hv
      refine ⟨by omega, ?_⟩
      intro habs
      have huv : u = v := by omega
      exact hu1 (huv ▸ hv)
  -- side conditions for the tail of the fold
  have hside2 : ∀ v ∈ cs2, u ≠ v ∧ u ≠ -v := by
    intro v hv
    exact ⟨fun habs => hu2 (habs ▸ hv), by have := hpos2 v hv; omega⟩
  have hside2' : ∀ v ∈ cs2, (-u) ≠ v ∧ (-u) ≠ -v := by
    intro v hv
    have := hpos2 v hv
    refine ⟨by omega, ?_⟩
    intro habs
    have huv : u = v := by omega
    exact hu2 (huv ▸ hv)
  -- both degree conditions must already hold in the input graph
  have hHout : H.outEdges u ≠ [] := by
    intro habs
    have hnoop : splitOne G1 u = G1 := by
      unfold splitOne
      rw [if_pos]
      simp [List.isEmpty_iff, hout1, habs]
    apply houtG
    rw [hGeq, hnoop, foldl_splitOne_outEdges cs2 u hside2 G1, hout1]
    exact habs
  have hHin : H.inEdges u ≠ [] := by
    intro habs
    apply hinG
    have l2 : ((cs2.foldl splitOne (splitOne G1 u)).inEdges u).length =
        ((splitOne G1 u).inEdges u).length :=
      foldl_splitOne_inEdges_length cs2 u (fun v hv => (hside2 v hv).2) _
    have l3 : ((splitOne G1 u).inEdges u).length = (G1.inEdges u).length :=
      splitOne_inEdges_length G1 u u (by omega)
    have hlen : ((splitCandidateNodes H).inEdges u).length = 0 := by
      rw [hGeq, l2, l3, hin1, habs]
      rfl
    exact List.eq_nil_of_length_eq_zero hlen
  have hG1in : G1.inEdges u ≠ [] := by
    intro habs
    apply hHin
    rw [habs] at hin1
    exact List.eq_nil_of_length_eq_zero hin1.symm
  have hG1out : G1.outEdges u ≠ [] := by
    rw [hout1]
    exact hHout
  obtain ⟨a1, a2, a3⟩ := splitOne_action G1 u hupos hG1in hG1out hneg1
  refine ⟨?_, ?_, ?_⟩
  · rw [hGeq, foldl_splitOne_outEdges cs2 u hside2, a1]
  · rw [hGeq]
    exact foldl_splitOne_nodes_zero cs2 (-u) _ a2
  · rw [hGeq, foldl_splitOne_outEdges cs2 (-u) hside2', a3, hout1]

/-! #### Well-formedness of the pre-split pipeline output -/

theorem nodesFromEdges_step_nodup (l : List Int) (x : Int) (h : l.Nodup) :
    (if l.contains x then l else l ++ [x]).Nodup := by
  split
  · exact h
  · rename_i hc
    rw [← List.concat_eq_append, List.concat_eq_append]
    refine List.Nodup.append h (List.nodup_singleton x) ?_
    intro a ha hb
    rw [List.mem_singleton] at hb
    exact hc (List.elem_iff.mpr (hb ▸ ha))

theorem nodesFromEdges_step_mem (l : List Int) (x y : Int)
    (h : y ∈ if l.contains x then l else l ++ [x]) : y ∈ l ∨ y = x := by
  split at h
  · exact Or.inl h
  · rcases List.mem_append.mp h with h' | h'
    · exact Or.inl h'
    · exact Or.inr (List.mem_singleton.mp h')

theorem nodesFromEdges_nodup (es : List Edge) : (nodesFromEdges es).Nodup := by
  unfold nodesFromEdges
  suffices h : ∀ acc : List Int, acc.Nodup →
      (es.foldl (fun acc e =>
        let acc1 := if acc.contains e.tail then acc else acc ++ [e.tail]
        if acc1.contains e.head then acc1 else acc1 ++ [e.head]) acc).Nodup by
    exact h [] List.nodup_nil
  induction es with
  | nil => intro acc h; exact h
  | cons e es ih =>
    intro acc h
    rw [List.foldl_cons]
    exact ih _ (nodesFromEdges_step_nodup _ _ (nodesFromEdges_step_nodup _ _ h))

theorem nodesFromEdges_mem (es : List Edge) (x : Int) (h : x ∈ nodesFromEdges es) :
    ∃ e ∈ es, x = e.tail ∨ x = e.head := by
  unfold nodesFromEdges at h
  suffices hgen : ∀ acc : List Int, x ∈ (es.foldl (fun acc e =>
      let acc1 := if acc.contains e.tail then acc else acc ++ [e.tail]
      if acc1.contains e.head then acc1 else acc1 ++ [e.head]) acc) →
      x ∈ acc ∨ ∃ e ∈ es, x = e.tail ∨ x = e.head by
    rcases hgen [] h with h' | h'
    · exact absurd h' (List.not_mem_nil x)
    · exact h'
  clear h
  induction es with
  | nil => intro acc h; exact Or.inl h
  | cons e es ih =>
    intro acc h
    rw [List.foldl_cons] at h
    rcases ih _ h with h' | ⟨e', he', hx⟩
    · rcases nodesFromEdges_step_mem _ _ _ h' with h'' | h''
      · rcases nodesFromEdges_step_mem _ _ _ h'' with h3 | h3
        · exact Or.inl h3
        · exact Or.inr ⟨e, List.mem_cons_self e es, Or.inl h3⟩
      · exact Or.inr ⟨e, List.mem_cons_self e es, Or.inr h''⟩
    · exact Or.inr ⟨e', List.mem_cons_of_mem e he', hx⟩

theorem fromPandasEdgelist_nodeIds (es : List Edge) :
    (fromPandasEdgelist es).nodeIds = nodesFromEdges es := by
  unfold fromPandasEdgelist Digraph.nodeIds
  simp only [List.map_map]
  exact List.map_id _

theorem fromPandasEdgelist_edges_mem (es : List Edge) (e : Edge)
    (h : e ∈ (fromPandasEdgelist es).edges) : e ∈ es := by
  unfold fromPandasEdgelist at h
  simp only at h
  suffices hgen : ∀ acc : List Edge, e ∈ (es.foldl (fun acc e =>
      acc.filter (fun e' => !(e'.tail == e.tail && e'.head == e.head)) ++ [e]) acc) →
      e ∈ acc ∨ e ∈ es by
    rcases hgen [] h with h' | h'
    · exact absurd h' (List.not_mem_nil e)
    · exact h'
  clear h
  induction es with
  | nil => intro acc h; exact Or.inl h
  | cons e' es ih =>
    intro acc h
    rw [List.foldl_cons] at h
    rcases ih _ h with h1 | h1
    · rcases List.mem_append.mp h1 with h2 | h2
      · exact Or.inl (List.mem_of_mem_filter h2)
      · rw [List.mem_singleton.mp h2]
        exact Or.inr (List.mem_cons_self e' es)
    · exact Or.inr (List.mem_cons_of_mem e' h1)

theorem filterLB_mem (timeDistMap : List ((Int × Int) × ℚ × ℚ)) (subArcs : List Edge)
    (orig dest : Int) (truckRange fuelTimeBound maxTime maxRoadTime : ℚ) (e : Edge)
    (h : e ∈ filterArcsTransitTimeLB timeDistMap subArcs orig dest truckRange fuelTimeBound
      maxTime maxRoadTime) : e ∈ subArcs :=
  List.mem_of_mem_filter h

theorem irrelevantSites_mem (typeOf : Int → NodeType) (arcs : List Edge) (orig dest : Int)
    (e : Edge) (h : e ∈ getArcsToAndFromIrrelevantSites typeOf arcs orig dest) : e ∈ arcs :=
  List.mem_of_mem_filter h

theorem removeRedundant_edges_mem (g : Digraph) (o d : Int) (maxRoadTime maxTime : ℚ)
    (e : Edge) (h : e ∈ (removeRedundantNodesAndEdges g o d maxRoadTime maxTime).edges) :
    e ∈ g.edges := by
  unfold removeRedundantNodesAndEdges at h
  dsimp only at h
  split at h
  · exact absurd h (List.not_mem_nil e)
  · split at h
    · exact absurd h (List.not_mem_nil e)
    · split at h
      · exact absurd h (List.not_mem_nil e)
      · split at h
        · exact absurd h (List.not_mem_nil e)
        · have h1 := List.mem_of_mem_filter h
          unfold trianglePrune at h1
          dsimp only at h1
          exact List.mem_of_mem_filter (List.mem_of_mem_filter h1)

theorem removeIsolates_edges_mem (g : Digraph) (o d : Int) (e : Edge)
    (h : e ∈ (removeIsolates g o d).edges) : e ∈ g.edges :=
  List.mem_of_mem_filter h

theorem removeIsolates_nodeIds_sublist (g : Digraph) (o d : Int) :
    (removeIsolates g o d).nodeIds.Sublist g.nodeIds :=
  List.Sublist.map Prod.fst (List.filter_sublist _)

/-- Well-formedness transported through the pre-split pipeline. -/
theorem presplit_good (orig dest : Int) (maxTime maxRoadTime : ℚ) (arcs : List Edge)
    (typeOf : Int → NodeType) (costTable : Int → ℚ)
    (timeDistMap : List ((Int × Int) × ℚ × ℚ)) (truckRange fuelTimeBound : ℚ)
    (harcs : ∀ e ∈ arcs, 0 < e.tail ∧ 0 < e.head) :
    (∀ n ∈ (presplitSubgraph orig dest maxTime maxRoadTime arcs typeOf costTable
        timeDistMap truckRange fuelTimeBound).nodeIds, 0 < n) ∧
    (presplitSubgraph orig dest maxTime maxRoadTime arcs typeOf costTable
        timeDistMap truckRange fuelTimeBound).nodeIds.Nodup ∧
    (∀ e ∈ (presplitSubgraph orig dest maxTime maxRoadTime arcs typeOf costTable
        timeDistMap truckRange fuelTimeBound).edges, 0 < e.tail) := by
  unfold presplitSubgraph
  dsimp only
  split
  · refine ⟨?_, ?_, ?_⟩
    · intro n hn
      exact absurd hn (List.not_mem_nil n)
    · exact List.nodup_nil
    · intro e he
      exact absurd he (List.not_mem_nil e)
  · set arcs2 := filterArcsTransitTimeLB timeDistMap
      (getArcsToAndFromIrrelevantSites typeOf arcs orig dest) orig dest truckRange
      fuelTimeBound maxTime maxRoadTime with harcs2
    have harcs2mem : ∀ e ∈ arcs2, e ∈ arcs := by
      intro e he
      exact irrelevantSites_mem typeOf arcs orig dest e (filterLB_mem _ _ _ _ _ _ _ _ e he)
    set G0 := fromPandasEdgelist arcs2 with hG0
    have hG0pos : ∀ n ∈ G0.nodeIds, 0 < n := by
      intro n hn
      rw [hG0, fromPandasEdgelist_nodeIds] at hn
      obtain ⟨e, he, hx⟩ := nodesFromEdges_mem arcs2 n hn
      obtain ⟨ht, hh⟩ := harcs e (harcs2mem e he)
      rcases hx with rfl | rfl
      · exact ht
      · exact hh
    have hG0nodup : G0.nodeIds.Nodup := by
      rw [hG0, fromPandasEdgelist_nodeIds]
      exact nodesFromEdges_nodup arcs2
    set RR := removeRedundantNodesAndEdges G0 orig dest maxRoadTime maxTime with hRR
    have hRRid : RR.nodeIds = G0.nodeIds ∨ RR.nodeIds = [] := by
      rcases removeRedundant_nodes_or_empty G0 orig dest maxRoadTime maxTime with h | h
      · right
        rw [hRR, h]
        rfl
      · left
        unfold Digraph.nodeIds
        rw [hRR, h]
    have hRRpos : ∀ n ∈ RR.nodeIds, 0 < n := by
      intro n hn
      rcases hRRid with h | h
      · exact hG0pos n (h ▸ hn)
      · exact absurd (h ▸ hn) (List.not_mem_nil n)
    have hRRnodup : RR.nodeIds.Nodup := by
      rcases hRRid with h | h
      · exact h ▸ hG0nodup
      · exact h ▸ List.nodup_nil
    refine ⟨?_, ?_, ?_⟩
    · intro n hn
      rw [setNodeCosts_nodeIds] at hn
      exact hRRpos n ((removeIsolates_nodeIds_sublist RR orig dest).mem hn)
    · rw [setNodeCosts_nodeIds]
      exact List.Nodup.sublist (removeIsolates_nodeIds_sublist RR orig dest) hRRnodup
    · intro e he
      have h1 : e ∈ RR.edges := removeIsolates_edges_mem RR orig dest e he
      have h2 : e ∈ G0.edges := removeRedundant_edges_mem G0 orig dest maxRoadTime maxTime e h1
      have h3 : e ∈ arcs2 := fromPandasEdgelist_edges_mem arcs2 e h2
      exact (harcs e (harcs2mem e h3)).1

/-- C2: in every subgraph returned by the per-pair subgraph builder (on
positive user node ids), every candidate node `u` (cost > 0) with both
incoming and outgoing arcs has exactly one outgoing arc; that arc goes to the
auxiliary node `-u` and all of its attributes (road time, fuel time, break
time, distance) are zero; the auxiliary node `-u` carries cost 0; and the
arcs that originally left `u` (in the pre-split subgraph) leave `-u`
instead. -/
theorem c2_candidate_split_invariant (orig dest : Int) (maxTime maxRoadTime : ℚ)
    (arcs : List Edge) (typeOf : Int → NodeType) (costTable : Int → ℚ)
    (timeDistMap : List ((Int × Int) × ℚ × ℚ)) (truckRange fuelTimeBound : ℚ)
    (harcs : ∀ e ∈ arcs, 0 < e.tail ∧ 0 < e.head) :
    ∀ u : Int, ∀ cu : ℚ,
    (u, cu) ∈ (createSubgraph orig dest maxTime maxRoadTime arcs typeOf costTable
      timeDistMap truckRange fuelTimeBound).nodes → 0 < cu →
    (createSubgraph orig dest maxTime maxRoadTime arcs typeOf costTable
      timeDistMap truckRange fuelTimeBound).inEdges u ≠ [] →
    (createSubgraph orig dest maxTime maxRoadTime arcs typeOf costTable
      timeDistMap truckRange fuelTimeBound).outEdges u ≠ [] →
    (createSubgraph orig dest maxTime maxRoadTime arcs typeOf costTable
      timeDistMap truckRange fuelTimeBound).outEdges u = [⟨u, -u, ArcAttr.zero⟩] ∧
    (-u, (0 : ℚ)) ∈ (createSubgraph orig dest maxTime maxRoadTime arcs typeOf costTable
      timeDistMap truckRange fuelTimeBound).nodes ∧
    (createSubgraph orig dest maxTime maxRoadTime arcs typeOf costTable
      timeDistMap truckRange fuelTimeBound).outEdges (-u) =
      ((presplitSubgraph orig dest maxTime maxRoadTime arcs typeOf costTable
        timeDistMap truckRange fuelTimeBound).outEdges u).map
        (fun e => ⟨-u, e.head, e.attr⟩) := by
  obtain ⟨h1, h2, h3⟩ := presplit_good orig dest maxTime maxRoadTime arcs typeOf costTable
    timeDistMap truckRange fuelTimeBound harcs
  exact splitCandidateNodes_spec _ h1 h2 h3

/-! #### C2 witness: a concrete builder input on which a split happens -/

def witnessArcsC2 : List Edge := [⟨1, 5, ⟨5, 0, 0, 0⟩⟩, ⟨5, 2, ⟨5, 0, 0, 0⟩⟩]

def witnessTypeC2 : Int → NodeType :=
  fun n => if n = 5 then NodeType.STATION else NodeType.SITE

def witnessCostC2 : Int → ℚ := fun n => if n = 5 then 3 else 0

def witnessMapC2 : List ((Int × Int) × ℚ × ℚ) :=
  [((1, 1), 0, 0), ((1, 5), 5, 0), ((5, 2), 5, 0), ((2, 2), 0, 0)]

/-- The C2 witness graph after `from_pandas_edgelist`. -/
def builtC2 : Digraph := ⟨[(1, 0), (5, 0), (2, 0)], witnessArcsC2⟩

def builtC2R : Digraph :=
  ⟨[(1, 0), (5, 0), (2, 0)], [⟨5, 1, ⟨5, 0, 0, 0⟩⟩, ⟨2, 5, ⟨5, 0, 0, 0⟩⟩]⟩

theorem builtC2_rev : builtC2.reverse = builtC2R := by decide
theorem spC2_12 : simplePaths builtC2 1 2 = [[1, 5, 2]] := by decide
theorem spC2_11 : simplePaths builtC2 1 1 = [[1]] := by decide
theorem spC2_15 : simplePaths builtC2 1 5 = [[1, 5]] := by decide
theorem spC2R_25 : simplePaths builtC2R 2 5 = [[2, 5]] := by decide
theorem spC2R_22 : simplePaths builtC2R 2 2 = [[2]] := by decide
theorem eaC2_15 : builtC2.edgeAttrD 1 5 = ⟨5, 0, 0, 0⟩ := by decide
theorem eaC2_52 : builtC2.edgeAttrD 5 2 = ⟨5, 0, 0, 0⟩ := by decide
theorem eaC2R_25 : builtC2R.edgeAttrD 2 5 = ⟨5, 0, 0, 0⟩ := by decide

theorem dC2_road_12 : distTo builtC2 arcRoadTime 1 2 = some 10 := by
  simp only [distTo, shortestPath, spC2_12, List.argmin, List.foldl, List.argAux]
  norm_num [pathCost, arcRoadTime, eaC2_15, eaC2_52]
theorem dC2_time_12 : distTo builtC2 arcTime 1 2 = some 10 := by
  simp only [distTo, shortestPath, spC2_12, List.argmin, List.foldl, List.argAux]
  norm_num [pathCost, arcTime, eaC2_15, eaC2_52]
theorem dC2_road_11 : distTo builtC2 arcRoadTime 1 1 = some 0 := by
  simp only [distTo, shortestPath, spC2_11, List.argmin, List.foldl, List.argAux]
  norm_num [pathCost]
theorem dC2_time_11 : distTo builtC2 arcTime 1 1 = some 0 := by
  simp only [distTo, shortestPath, spC2_11, List.argmin, List.foldl, List.argAux]
  norm_num [pathCost]
theorem dC2_road_15 : distTo builtC2 arcRoadTime 1 5 = some 5 := by
  simp only [distTo, shortestPath, spC2_15, List.argmin, List.foldl, List.argAux]
  norm_num [pathCost, arcRoadTime, eaC2_15]
theorem dC2_time_15 : distTo builtC2 arcTime 1 5 = some 5 := by
  simp only [distTo, shortestPath, spC2_15, List.argmin, List.foldl, List.argAux]
  norm_num [pathCost, arcTime, eaC2_15]
theorem dC2R_road_25 : distTo builtC2R arcRoadTime 2 5 = some 5 := by
  simp only [distTo, shortestPath, spC2R_25, List.argmin, List.foldl, List.argAux]
  norm_num [pathCost, arcRoadTime, eaC2R_25]
theorem dC2R_time_25 : distTo builtC2R arcTime 2 5 = some 5 := by
  simp only [distTo, shortestPath, spC2R_25, List.argmin, List.foldl, List.argAux]
  norm_num [pathCost, arcTime, eaC2R_25]
theorem dC2R_road_22 : distTo builtC2R arcRoadTime 2 2 = some 0 := by
  simp only [distTo, shortestPath, spC2R_22, List.argmin, List.foldl, List.argAux]
  norm_num [pathCost]
theorem dC2R_time_22 : distTo builtC2R arcTime 2 2 = some 0 := by
  simp only [distTo, shortestPath, spC2R_22, List.argmin, List.foldl, List.argAux]
  norm_num [pathCost]

theorem triC2 : trianglePrune builtC2 1 2 = builtC2 := by decide
theorem edgesC2 : builtC2.edges = witnessArcsC2 := by decide
theorem nodesC2 : builtC2.nodes = [(1, 0), (5, 0), (2, 0)] := by decide

theorem rrC2 : removeRedundantNodesAndEdges builtC2 1 2 100 100 =
    ⟨[(1, 0), (5, 0), (2, 0)], witnessArcsC2⟩ := by
  simp only [removeRedundantNodesAndEdges, triC2, builtC2_rev, dC2_road_12, dC2_time_12]
  norm_num [edgesC2, nodesC2, witnessArcsC2, List.filter, dC2_road_11, dC2_road_15,
    dC2_time_11, dC2_time_15, dC2R_road_25, dC2R_road_22, dC2R_time_25, dC2R_time_22,
    arcRoadTime, arcTime]

/-- The pre-split graph on the C2 witness input. -/
def presplitC2 : Digraph := ⟨[(1, 0), (5, 3), (2, 0)], witnessArcsC2⟩

theorem presplitC2_eval :
    presplitSubgraph 1 2 100 100 witnessArcsC2 witnessTypeC2 witnessCostC2 witnessMapC2
      300 10 = presplitC2 := by
  have h1 : getArcsToAndFromIrrelevantSites witnessTypeC2 witnessArcsC2 1 2 =
      witnessArcsC2 := by decide
  have m11 : mapLookup witnessMapC2 1 1 = some (0, 0) := by decide
  have m15 : mapLookup witnessMapC2 1 5 = some (5, 0) := by decide
  have m52 : mapLookup witnessMapC2 5 2 = some (5, 0) := by decide
  have m22 : mapLookup witnessMapC2 2 2 = some (0, 0) := by decide
  have h2 : filterArcsTransitTimeLB witnessMapC2 witnessArcsC2 1 2 300 10 100 100 =
      witnessArcsC2 := by
    norm_num [filterArcsTransitTimeLB, witnessArcsC2, List.filter, m11, m15, m52, m22]
  have h3 : fromPandasEdgelist witnessArcsC2 = builtC2 := by decide
  unfold presplitSubgraph
  simp only [h1, h2, h3]
  rw [if_neg (by decide)]
  rw [rrC2]
  decide

/-- The builder's output on the C2 witness input: candidate 5 is split. -/
def splitGraphC2 : Digraph :=
  ⟨[(1, 0), (5, 3), (2, 0), (-5, 0)],
    [⟨1, 5, ⟨5, 0, 0, 0⟩⟩, ⟨-5, 2, ⟨5, 0, 0, 0⟩⟩, ⟨5, -5, ArcAttr.zero⟩]⟩

theorem createSubgraphC2_eval :
    createSubgraph 1 2 100 100 witnessArcsC2 witnessTypeC2 witnessCostC2 witnessMapC2
      300 10 = splitGraphC2 := by
  unfold createSubgraph
  rw [presplitC2_eval]
  decide

/-- Witness for C2 at the concrete input above (candidate node 5, cost 3). -/
theorem c2_candidate_split_invariant_witness :
    ((∀ e ∈ witnessArcsC2, 0 < e.tail ∧ 0 < e.head) ∧
      ((5 : Int), (3 : ℚ)) ∈ (createSubgraph 1 2 100 100 witnessArcsC2 witnessTypeC2
        witnessCostC2 witnessMapC2 300 10).nodes ∧
      (0 : ℚ) < 3 ∧
      (createSubgraph 1 2 100 100 witnessArcsC2 witnessTypeC2 witnessCostC2 witnessMapC2
        300 10).inEdges 5 ≠ [] ∧
      (createSubgraph 1 2 100 100 witnessArcsC2 witnessTypeC2 witnessCostC2 witnessMapC2
        300 10).outEdges 5 ≠ []) ∧
    ((createSubgraph 1 2 100 100 witnessArcsC2 witnessTypeC2 witnessCostC2 witnessMapC2
        300 10).outEdges 5 = [⟨5, -5, ArcAttr.zero⟩] ∧
      ((-5 : Int), (0 : ℚ)) ∈ (createSubgraph 1 2 100 100 witnessArcsC2 witnessTypeC2
        witnessCostC2 witnessMapC2 300 10).nodes ∧
      (createSubgraph 1 2 100 100 witnessArcsC2 witnessTypeC2 witnessCostC2 witnessMapC2
        300 10).outEdges (-5) =
        ((presplitSubgraph 1 2 100 100 witnessArcsC2 witnessTypeC2 witnessCostC2
          witnessMapC2 300 10).outEdges 5).map (fun e => ⟨-5, e.head, e.attr⟩)) :=
  ⟨⟨by decide, by rw [createSubgraphC2_eval]; decide, by norm_num,
      by rw [createSubgraphC2_eval]; decide, by rw [createSubgraphC2_eval]; decide⟩,
    c2_candidate_split_invariant 1 2 100 100 witnessArcsC2 witnessTypeC2 witnessCostC2
      witnessMapC2 300 10 (by decide) 5 3
      (by rw [createSubgraphC2_eval]; decide) (by norm_num)
      (by rw [createSubgraphC2_eval]; decide) (by rw [createSubgraphC2_eval]; decide)⟩

/-! ### C6: `util.remove_redundancy` and `util._update_substitute_paths`

The mutable state of the Python function is the `solution_dict` (an
association list of candidate station to activity flag) and the `paths`
array (`None` entries as `none`), threaded explicitly. -/

/-- `solution_dict.get(n)` (`None` is falsy, so absent keys read as
`false`). -/
def isActiveDict (dict : List (Int × Bool)) (n : Int) : Bool :=
  ((dict.find? (fun p => p.1 == n)).map Prod.snd).getD false

/-- `solution_dict[n] = b`; the keys written by `_update_substitute_paths`
are always present, so an update-in-place suffices. -/
def dictSet (dict : List (Int × Bool)) (n : Int) (b : Bool) : List (Int × Bool) :=
  dict.map (fun p => if p.1 == n then (p.1, b) else p)

/-- `nodes.at[n, Nodes.cost]` over the rows of the node table (the pipeline
only queries ids present in the table; absent ids read as cost 0). -/
def costAtTable (nodesTable : List (Int × ℚ)) (n : Int) : ℚ :=
  ((nodesTable.find? (fun p => p.1 == n)).map Prod.snd).getD 0

/-- The `is_real_filter` closure of `remove_redundancy`:
`is_dummy(u) or not is_candidate_node(u) or is_active(u)`, reading the live
`solution_dict`. -/
def isRealFilter (dict : List (Int × Bool)) (nodesTable : List (Int × ℚ)) (u : Int) : Bool :=
  isDummy u || !(decide (0 < costAtTable nodesTable u)) || isActiveDict dict u

/-- `candidate_indices = nodes[nodes[Nodes.cost] > 0].index`. -/
def candidateIndices (nodesTable : List (Int × ℚ)) : List Int :=
  (nodesTable.filter (fun p => decide (0 < p.2))).map Prod.fst

/-- `subgraphs[k]`; all call sites use in-range indices. -/
def subgraphAt (subgraphs : List Digraph) (k : ℕ) : Digraph :=
  (subgraphs[k]?).getD Digraph.empty

/-- `od_pairs.at[k, ...]` row access; all call sites use in-range indices. -/
def pairAt (odPairs : List OdPairRow) (k : ℕ) : OdPairRow :=
  (odPairs[k]?).getD ⟨0, 0, 0, 0, 0, false⟩

/-- The `subgraph_indices` list of `remove_redundancy`: pairs that are
feasible, have positive demand and are not flagged as ignored. -/
def subgraphIndices (odPairs : List OdPairRow) (numSubgraphs : ℕ) (ignore : List Bool) :
    List ℕ :=
  (List.range numSubgraphs).filter (fun k =>
    (pairAt odPairs k).feasible && decide (0 < (pairAt odPairs k).demand) &&
      !((ignore[k]?).getD false))

/-- The state mutated by `_update_substitute_paths`. -/
structure RRState where
  dict : List (Int × Bool)
  paths : ℕ → Option (List Int)

/-- Inner loop of `_update_substitute_paths` for one `node`: the substitute
path for every pair whose current path visits `node`; `none` models the
`remove = False` break (some affected pair admits no substitute). -/
def trySubstitutes (fuel : ℕ) (subgraphs : List Digraph) (odPairs : List OdPairRow)
    (node : Int) (filterFunc : Int → Bool) (paths : ℕ → Option (List Int)) :
    List ℕ → Option (List (ℕ × List Int))
  | [] => some []
  | k :: rest =>
    match paths k with
    | none => trySubstitutes fuel subgraphs odPairs node filterFunc paths rest
    | some p =>
      if node ∈ p then
        if (getFeasiblePath (subgraphAt subgraphs k) (pairAt odPairs k) filterFunc fuel).isEmpty
        then none
        else
          match trySubstitutes fuel subgraphs odPairs node filterFunc paths rest with
          | none => none
          | some subs =>
            some ((k, getFeasiblePath (subgraphAt subgraphs k) (pairAt odPairs k)
              filterFunc fuel) :: subs)
      else trySubstitutes fuel subgraphs odPairs node filterFunc paths rest

/-- One iteration of the outer loop of `_update_substitute_paths`: if every
affected pair admits a substitute (with `node` hidden), deactivate `node`
and install the substitute paths; otherwise leave the state unchanged. -/
def updateForNode (fuel : ℕ) (nodesTable : List (Int × ℚ)) (indices : List ℕ)
    (subgraphs : List Digraph) (odPairs : List OdPairRow) (st : RRState) (node : Int) :
    RRState :=
  match trySubstitutes fuel subgraphs odPairs node
      (fun u => !(u == node) && isRealFilter st.dict nodesTable u) st.paths indices with
  | none => st
  | some subs =>
    { dict := dictSet st.dict node false,
      paths := fun k =>
        match subs.find? (fun s => s.1 == k) with
        | some s => some s.2
        | none => st.paths k }

/-- `util._update_substitute_paths` (the candidate list is evaluated once,
on the initial dictionary, exactly as the Python list comprehension). -/
def updateSubstitutePaths (fuel : ℕ) (nodesTable : List (Int × ℚ)) (indices : List ℕ)
    (subgraphs : List Digraph) (odPairs : List OdPairRow) (st0 : RRState) : List Int :=
  let cands := candidateIndices nodesTable
  let stF := (cands.filter (fun n => isActiveDict st0.dict n)).foldl
    (updateForNode fuel nodesTable indices subgraphs odPairs) st0
  cands.filter (fun u => isActiveDict stF.dict u)

/-- The initial `paths` array computed by `remove_redundancy`. -/
def initialPaths (fuel : ℕ) (solution : List Int) (nodesTable : List (Int × ℚ))
    (subgraphs : List Digraph) (odPairs : List OdPairRow) (ignore : List Bool) :
    ℕ → Option (List Int) :=
  fun k =>
    if k ∈ subgraphIndices odPairs subgraphs.length ignore then
      if (getFeasiblePath (subgraphAt subgraphs k) (pairAt odPairs k)
          (isRealFilter (solution.map (fun u => (u, true))) nodesTable) fuel).isEmpty
      then none
      else some (getFeasiblePath (subgraphAt subgraphs k) (pairAt odPairs k)
        (isRealFilter (solution.map (fun u => (u, true))) nodesTable) fuel)
    else none

/-- `util.remove_redundancy` (with `ignore` defaulting to all-`False` when
the caller passes `[]`, since absent entries read as `false`). -/
def removeRedundancy (fuel : ℕ) (solution : List Int) (nodesTable : List (Int × ℚ))
    (subgraphs : List Digraph) (odPairs : List OdPairRow) (ignore : List Bool) : List Int :=
  updateSubstitutePaths fuel nodesTable (subgraphIndices odPairs subgraphs.length ignore)
    subgraphs odPairs
    ⟨solution.map (fun u => (u, true)),
     initialPaths fuel solution nodesTable subgraphs odPairs ignore⟩

/-! #### Path predicates for the coverage statement -/

/-- Edge keys `(tail, head)` are unique, as in any `nx.DiGraph` (networkx
stores the adjacency in nested dictionaries). -/
def keysNodup (g : Digraph) : Prop :=
  (g.edges.map (fun e => (e.tail, e.head))).Nodup

/-- `p` is a directed path from `o` to `d` in `g`. -/
def IsPathIn (g : Digraph) (o d : Int) (p : List Int) : Prop :=
  p ≠ [] ∧ p.head? = some o ∧ p.getLast? = some d ∧ List.Chain' (adjacent g) p

/-- `p` connects `o` to `d` within both time bounds while visiting only
nodes allowed by `pred`; times are measured in the underlying subgraph. -/
def FeasibleAllowedPath (g : Digraph) (pred : Int → Bool) (o d : Int)
    (maxRoadTime maxTime : ℚ) (p : List Int) : Prop :=
  IsPathIn (filterGraph g pred) o d p ∧
    pathCost g arcRoadTime p ≤ maxRoadTime ∧ pathCost g arcTime p ≤ maxTime

/-- The OD pair admits some time-feasible path through allowed nodes. -/
def AdmitsFeasible (g : Digraph) (pred : Int → Bool) (pair : OdPairRow) : Prop :=
  ∃ p, FeasibleAllowedPath g pred pair.originId pair.destinationId
    pair.maxRoadTime pair.maxTime p

/-- The node filter described by the claim: dummy nodes, non-candidate
(zero-cost) nodes, and candidate stations of the set `S`. -/
def solutionFilter (nodesTable : List (Int × ℚ)) (S : List Int) (u : Int) : Bool :=
  isDummy u || !(decide (0 < costAtTable nodesTable u)) || S.contains u

/-! #### Structural soundness of the path enumeration -/

theorem simplePathsAux_path (g : Digraph) (dest : Int) :
    ∀ (fuel : ℕ) (cur : Int) (visited : List Int) (p : List Int),
    p ∈ simplePathsAux g dest fuel cur visited →
    p ≠ [] ∧ p.head? = some cur ∧ p.getLast? = some dest ∧
      List.Chain' (adjacent g) p := by
  intro fuel
  induction fuel with
  | zero => intro cur visited p h; exact absurd h (by simp [simplePathsAux])
  | succ n ih =>
    intro cur visited p h
    rw [simplePathsAux] at h
    by_cases hcd : cur = dest
    · rw [if_pos hcd] at h
      simp only [List.mem_singleton] at h
      subst h
      exact ⟨by simp, rfl, by simp [hcd], List.chain'_singleton cur⟩
    · rw [if_neg hcd] at h
      simp only [List.mem_flatMap, List.mem_map, List.mem_filter] at h
      obtain ⟨v, ⟨hv, -⟩, q, hq, hpq⟩ := h
      obtain ⟨hqne, hqhead, hqlast, hqchain⟩ := ih v (v :: visited) q hq
      subst hpq
      have hadj : adjacent g cur v := by
        simp only [Digraph.succ, Digraph.outEdges, List.mem_map, List.mem_filter] at hv
        obtain ⟨e, ⟨he, ht⟩, hh⟩ := hv
        exact ⟨e, he, by simpa using ht, hh⟩
      refine ⟨by simp, rfl, ?_, ?_⟩
      · obtain ⟨a, q', rfl⟩ := List.exists_cons_of_ne_nil hqne
        simpa using hqlast
      · refine List.chain'_cons'.mpr ⟨?_, hqchain⟩
        intro b hb
        rw [hqhead] at hb
        simp only [Option.mem_def, Option.some.injEq] at hb
        exact hb ▸ hadj

theorem simplePaths_isPath (g : Digraph) (o d : Int) (p : List Int)
    (h : p ∈ simplePaths g o d) : IsPathIn g o d p := by
  unfold simplePaths at h
  split at h
  · obtain ⟨hne, hhead, hlast, hchain⟩ :=
      simplePathsAux_path g d (g.nodeIds.length + 1) o [o] p h
    exact ⟨hne, hhead, hlast, hchain⟩
  · exact absurd h (by simp)

/-- An adjacency gives an attribute dictionary for the arc. -/
theorem adjacent_edgeAttr (g : Digraph) (u v : Int) (h : adjacent g u v) :
    ∃ a, g.edgeAttr u v = some a := by
  obtain ⟨e, he, ht, hh⟩ := h
  have hsome : (g.edges.reverse.find? (fun e => e.tail == u && e.head == v)).isSome := by
    rw [List.find?_isSome]
    exact ⟨e, by simpa using he, by simp [ht, hh]⟩
  obtain ⟨e', he'⟩ := Option.isSome_iff_exists.mp hsome
  exact ⟨e'.attr, by rw [Digraph.edgeAttr, he']; rfl⟩

/-- With unique edge keys, an arc attribute read off a node-filtered view
agrees with the attribute in the underlying graph. -/
theorem edgeAttr_filterGraph (g : Digraph) (pred : Int → Bool) (hk : keysNodup g)
    (u v : Int) (a : ArcAttr) (h : (filterGraph g pred).edgeAttr u v = some a) :
    g.edgeAttr u v = some a := by
  rw [Digraph.edgeAttr, Option.map_eq_some'] at h
  obtain ⟨e, hfind, hattr⟩ := h
  have hkey : (e.tail == u && e.head == v) = true := by
    have := List.find?_some hfind
    simpa using this
  have hmem : e ∈ (filterGraph g pred).edges := by
    have := List.mem_of_find?_eq_some hfind
    simpa using this
  have hge : e ∈ g.edges := by
    simp only [filterGraph, List.mem_filter] at hmem
    exact hmem.1
  have hsome : (g.edges.reverse.find? (fun e => e.tail == u && e.head == v)).isSome := by
    rw [List.find?_isSome]
    exact ⟨e, by simpa using hge, hkey⟩
  obtain ⟨e', hfind'⟩ := Option.isSome_iff_exists.mp hsome
  have hkey' : (e'.tail == u && e'.head == v) = true := by
    have := List.find?_some hfind'
    simpa using this
  have hge' : e' ∈ g.edges := by
    have := List.mem_of_find?_eq_some hfind'
    simpa using this
  have hee : e' = e := by
    simp only [Bool.and_eq_true, beq_iff_eq] at hkey hkey'
    exact List.inj_on_of_nodup_map hk hge' hge
      (by rw [hkey'.1, hkey'.2, hkey.1, hkey.2])
  rw [Digraph.edgeAttr, hfind', hee]
  simp [hattr]

/-- With unique edge keys, path weights measured in a node-filtered view
agree with path weights in the underlying graph, along any path of the
view. -/
theorem pathCost_filterGraph (g : Digraph) (pred : Int → Bool) (hk : keysNodup g)
    (f : WFun) : ∀ (p : List Int), List.Chain' (adjacent (filterGraph g pred)) p →
    pathCost (filterGraph g pred) f p = pathCost g f p := by
  intro p
  induction p with
  | nil => intro _; rfl
  | cons u rest ih =>
    intro hchain
    cases rest with
    | nil => rfl
    | cons v rest' =>
      obtain ⟨hadj, hchain'⟩ := List.chain'_cons.mp hchain
      obtain ⟨a, ha⟩ := adjacent_edgeAttr (filterGraph g pred) u v hadj
      have hbase : g.edgeAttr u v = some a := edgeAttr_filterGraph g pred hk u v a ha
      show f u v ((filterGraph g pred).edgeAttrD u v) + _ =
        f u v (g.edgeAttrD u v) + _
      rw [Digraph.edgeAttrD, Digraph.edgeAttrD, ha, hbase, ih hchain']

/-- Soundness of the coverage oracle: a non-empty result of
`get_feasible_path` is a path of the filtered view satisfying both time
bounds (times measured in the underlying subgraph). -/
theorem getFeasiblePath_sound (sub : Digraph) (pair : OdPairRow) (filterFunc : Int → Bool)
    (fuel : ℕ) (hk : keysNodup sub)
    (hne : getFeasiblePath sub pair filterFunc fuel ≠ []) :
    FeasibleAllowedPath sub filterFunc pair.originId pair.destinationId
      pair.maxRoadTime pair.maxTime (getFeasiblePath sub pair filterFunc fuel) := by
  unfold getFeasiblePath at hne ⊢
  obtain ⟨hroad, htime, hmem⟩ := timeFeasiblePath_sound (filterGraph sub filterFunc)
    pair.originId pair.destinationId pair.maxRoadTime pair.maxTime fuel hne
  have hpath := simplePaths_isPath (filterGraph sub filterFunc)
    pair.originId pair.destinationId _ hmem
  have hcost := pathCost_filterGraph sub filterFunc hk
  refine ⟨hpath, ?_, ?_⟩
  · rw [← hcost arcRoadTime _ hpath.2.2.2]; exact hroad
  · rw [← hcost arcTime _ hpath.2.2.2]; exact htime

/-! #### Monotonicity of allowed paths in the node filter -/

theorem adjacent_filter_mono (g : Digraph) (pred1 pred2 : Int → Bool) (a b : Int)
    (hia : pred1 a = true → pred2 a = true) (hib : pred1 b = true → pred2 b = true)
    (h : adjacent (filterGraph g pred1) a b) : adjacent (filterGraph g pred2) a b := by
  obtain ⟨e, he, ht, hh⟩ := h
  subst ht
  subst hh
  simp only [filterGraph, List.mem_filter, Bool.and_eq_true] at he
  obtain ⟨hge, hp1, hp2⟩ := he
  refine ⟨e, ?_, rfl, rfl⟩
  simp only [filterGraph, List.mem_filter, Bool.and_eq_true]
  exact ⟨hge, hia hp1, hib hp2⟩

theorem chain_filter_mono (g : Digraph) (pred1 pred2 : Int → Bool) :
    ∀ (p : List Int), (∀ u ∈ p, pred1 u = true → pred2 u = true) →
    List.Chain' (adjacent (filterGraph g pred1)) p →
    List.Chain' (adjacent (filterGraph g pred2)) p := by
  intro p
  induction p with
  | nil => intro _ _; exact List.chain'_nil
  | cons a rest ih =>
    intro himp hchain
    cases rest with
    | nil => exact List.chain'_singleton a
    | cons b rest' =>
      obtain ⟨hab, hrest⟩ := List.chain'_cons.mp hchain
      refine List.chain'_cons.mpr ⟨?_, ?_⟩
      · exact adjacent_filter_mono g pred1 pred2 a b
          (himp a (by simp)) (himp b (by simp)) hab
      · exact ih (fun u hu => himp u (List.mem_cons_of_mem a hu)) hrest

theorem feasibleAllowedPath_mono (g : Digraph) (pred1 pred2 : Int → Bool) (o d : Int)
    (R T : ℚ) (p : List Int) (himp : ∀ u ∈ p, pred1 u = true → pred2 u = true)
    (h : FeasibleAllowedPath g pred1 o d R T p) :
    FeasibleAllowedPath g pred2 o d R T p := by
  obtain ⟨⟨hne, hhead, hlast, hchain⟩, hroad, htime⟩ := h
  exact ⟨⟨hne, hhead, hlast, chain_filter_mono g pred1 pred2 p himp hchain⟩, hroad, htime⟩

/-! #### Dictionary lemmas -/

theorem dictSet_active_other (dict : List (Int × Bool)) (node : Int) (b : Bool)
    (u : Int) (hu : u ≠ node) :
    isActiveDict (dictSet dict node b) u = isActiveDict dict u := by
  unfold isActiveDict dictSet
  rw [List.find?_map]
  have hcomp : ((fun p => p.1 == u) ∘ (fun p => if p.1 == node then (p.1, b) else p) :
      Int × Bool → Bool) = (fun p => p.1 == u) := by
    funext p
    simp only [Function.comp]
    split <;> rfl
  rw [hcomp]
  cases hf : dict.find? (fun p => p.1 == u) with
  | none => rfl
  | some q =>
    have hq : q.1 = u := by
      have := List.find?_some hf
      simpa using this
    have h1 : ¬ q.1 = node := by rw [hq]; exact hu
    simp [h1]

theorem dictSet_key_mem (dict : List (Int × Bool)) (node : Int) (b : Bool)
    (q : Int × Bool) (h : q ∈ dictSet dict node b) : ∃ b', (q.1, b') ∈ dict := by
  unfold dictSet at h
  obtain ⟨q0, hq0, hq⟩ := List.mem_map.mp h
  have hfst : q.1 = q0.1 := by
    split at hq <;> simp [← hq]
  exact ⟨q0.2, by rw [hfst]; exact hq0⟩

theorem isActiveDict_eq_true (dict : List (Int × Bool)) (u : Int)
    (h : isActiveDict dict u = true) : (u, true) ∈ dict := by
  unfold isActiveDict at h
  cases hf : dict.find? (fun p => p.1 == u) with
  | none => rw [hf] at h; simp at h
  | some q =>
    rw [hf] at h
    simp only [Option.map_some', Option.getD_some] at h
    have hq : q.1 = u := by
      have := List.find?_some hf
      simpa using this
    have hm := List.mem_of_find?_eq_some hf
    have hqu : q = (u, true) := by
      obtain ⟨q1, q2⟩ := q
      simp only at hq h
      rw [hq, h]
    rw [← hqu]
    exact hm

theorem costAt_pos_mem_candidates (nodesTable : List (Int × ℚ)) (u : Int)
    (h : 0 < costAtTable nodesTable u) : u ∈ candidateIndices nodesTable := by
  unfold costAtTable at h
  cases hf : nodesTable.find? (fun p => p.1 == u) with
  | none => rw [hf] at h; norm_num at h
  | some q =>
    rw [hf] at h
    simp only [Option.map_some', Option.getD_some] at h
    have hq : q.1 = u := by
      have := List.find?_some hf
      simpa using this
    have hm := List.mem_of_find?_eq_some hf
    unfold candidateIndices
    exact List.mem_map.mpr ⟨q, List.mem_filter.mpr ⟨hm, by simpa using h⟩, hq⟩

theorem isRealFilter_dictSet (dict : List (Int × Bool)) (nodesTable : List (Int × ℚ))
    (node : Int) (u : Int) (hu : u ≠ node)
    (h : isRealFilter dict nodesTable u = true) :
    isRealFilter (dictSet dict node false) nodesTable u = true := by
  unfold isRealFilter at h ⊢
  rw [dictSet_active_other dict node false u hu]
  exact h

/-! #### The inner substitution loop -/

theorem trySubstitutes_mem (fuel : ℕ) (subgraphs : List Digraph) (odPairs : List OdPairRow)
    (node : Int) (filterFunc : Int → Bool) (paths : ℕ → Option (List Int)) :
    ∀ (ks : List ℕ) (subs : List (ℕ × List Int)),
    trySubstitutes fuel subgraphs odPairs node filterFunc paths ks = some subs →
    ∀ s ∈ subs, s.1 ∈ ks ∧
      s.2 = getFeasiblePath (subgraphAt subgraphs s.1) (pairAt odPairs s.1) filterFunc fuel ∧
      s.2 ≠ [] := by
  intro ks
  induction ks with
  | nil =>
    intro subs h s hs
    simp only [trySubstitutes, Option.some.injEq] at h
    subst h
    exact absurd hs (by simp)
  | cons k rest ih =>
    intro subs h s hs
    rw [trySubstitutes] at h
    cases hp : paths k with
    | none =>
      rw [hp] at h
      obtain ⟨h1, h2, h3⟩ := ih subs h s hs
      exact ⟨List.mem_cons_of_mem k h1, h2, h3⟩
    | some p =>
      rw [hp] at h
      simp only at h
      by_cases hmem : node ∈ p
      · rw [if_pos hmem] at h
        by_cases hq : (getFeasiblePath (subgraphAt subgraphs k) (pairAt odPairs k)
            filterFunc fuel).isEmpty
        · rw [if_pos hq] at h; exact absurd h (by simp)
        · rw [if_neg hq] at h
          cases ht : trySubstitutes fuel subgraphs odPairs node filterFunc paths rest with
          | none => rw [ht] at h; exact absurd h (by simp)
          | some subs' =>
            rw [ht] at h
            simp only [Option.some.injEq] at h
            subst h
            rcases List.mem_cons.mp hs with hs1 | hs2
            · have h1 : s.1 = k := by rw [hs1]
              have h2 : s.2 = getFeasiblePath (subgraphAt subgraphs k) (pairAt odPairs k)
                  filterFunc fuel := by rw [hs1]
              refine ⟨by rw [h1]; exact List.mem_cons_self k rest, by rw [h2, h1], ?_⟩
              rw [h2]
              intro hnil
              rw [hnil] at hq
              exact hq rfl
            · obtain ⟨h1, h2, h3⟩ := ih subs' ht s hs2
              exact ⟨List.mem_cons_of_mem k h1, h2, h3⟩
      · rw [if_neg hmem] at h
        obtain ⟨h1, h2, h3⟩ := ih subs h s hs
        exact ⟨List.mem_cons_of_mem k h1, h2, h3⟩

theorem trySubstitutes_complete (fuel : ℕ) (subgraphs : List Digraph)
    (odPairs : List OdPairRow) (node : Int) (filterFunc : Int → Bool)
    (paths : ℕ → Option (List Int)) :
    ∀ (ks : List ℕ) (subs : List (ℕ × List Int)),
    trySubstitutes fuel subgraphs odPairs node filterFunc paths ks = some subs →
    ∀ k ∈ ks, ∀ p, paths k = some p → node ∈ p → ∃ q, (k, q) ∈ subs := by
  intro ks
  induction ks with
  | nil =>
    intro subs h k hk
    exact absurd hk (by simp)
  | cons k0 rest ih =>
    intro subs h k hk p hp hnode
    rw [trySubstitutes] at h
    rcases List.mem_cons.mp hk with rfl | hk'
    · rw [hp] at h
      simp only at h
      rw [if_pos hnode] at h
      by_cases hq : (getFeasiblePath (subgraphAt subgraphs k) (pairAt odPairs k)
          filterFunc fuel).isEmpty
      · rw [if_pos hq] at h; exact absurd h (by simp)
      · rw [if_neg hq] at h
        cases ht : trySubstitutes fuel subgraphs odPairs node filterFunc paths rest with
        | none => rw [ht] at h; exact absurd h (by simp)
        | some subs' =>
          rw [ht] at h
          simp only [Option.some.injEq] at h
          subst h
          exact ⟨_, List.mem_cons_self _ _⟩
    · cases hpk0 : paths k0 with
      | none =>
        rw [hpk0] at h
        exact ih subs h k hk' p hp hnode
      | some p0 =>
        rw [hpk0] at h
        simp only at h
        by_cases hn0 : node ∈ p0
        · rw [if_pos hn0] at h
          by_cases hq : (getFeasiblePath (subgraphAt subgraphs k0) (pairAt odPairs k0)
              filterFunc fuel).isEmpty
          · rw [if_pos hq] at h; exact absurd h (by simp)
          · rw [if_neg hq] at h
            cases ht : trySubstitutes fuel subgraphs odPairs node filterFunc paths rest with
            | none => rw [ht] at h; exact absurd h (by simp)
            | some subs' =>
              rw [ht] at h
              simp only [Option.some.injEq] at h
              subst h
              obtain ⟨q, hq'⟩ := ih subs' ht k hk' p hp hnode
              exact ⟨q, List.mem_cons_of_mem _ hq'⟩
        · rw [if_neg hn0] at h
          exact ih subs h k hk' p hp hnode

/-! #### Loop invariant of `_update_substitute_paths` -/

theorem subgraphAt_keysNodup (subgraphs : List Digraph)
    (hkeys : ∀ g ∈ subgraphs, keysNodup g) (k : ℕ) :
    keysNodup (subgraphAt subgraphs k) := by
  unfold subgraphAt
  cases h : subgraphs[k]? with
  | none => simp [keysNodup, Digraph.empty]
  | some g =>
    simp only [Option.getD_some]
    obtain ⟨hlt, hg⟩ := List.getElem?_eq_some.mp h
    exact hkeys g (hg ▸ List.getElem_mem hlt)

/-- Invariant maintained by the node-removal loop: dictionary keys come from
the input solution, every stored path is feasible for its pair through the
stations active in the current dictionary, and pairs initially covered stay
covered. -/
def RRInv (solution : List Int) (nodesTable : List (Int × ℚ)) (indices : List ℕ)
    (subgraphs : List Digraph) (odPairs : List OdPairRow)
    (base : ℕ → Option (List Int)) (st : RRState) : Prop :=
  (∀ q ∈ st.dict, q.1 ∈ solution) ∧
  (∀ k ∈ indices, ∀ p, st.paths k = some p →
    FeasibleAllowedPath (subgraphAt subgraphs k) (isRealFilter st.dict nodesTable)
      (pairAt odPairs k).originId (pairAt odPairs k).destinationId
      (pairAt odPairs k).maxRoadTime (pairAt odPairs k).maxTime p) ∧
  (∀ k, (base k).isSome = true → (st.paths k).isSome = true)

theorem updateForNode_inv (fuel : ℕ) (solution : List Int) (nodesTable : List (Int × ℚ))
    (indices : List ℕ) (subgraphs : List Digraph) (odPairs : List OdPairRow)
    (base : ℕ → Option (List Int)) (hkeys : ∀ g ∈ subgraphs, keysNodup g)
    (st : RRState) (node : Int)
    (hinv : RRInv solution nodesTable indices subgraphs odPairs base st) :
    RRInv solution nodesTable indices subgraphs odPairs base
      (updateForNode fuel nodesTable indices subgraphs odPairs st node) := by
  obtain ⟨hkeysub, hfeas, hsome⟩ := hinv
  unfold updateForNode
  cases ht : trySubstitutes fuel subgraphs odPairs node
      (fun u => !(u == node) && isRealFilter st.dict nodesTable u) st.paths indices with
  | none => exact ⟨hkeysub, hfeas, hsome⟩
  | some subs =>
    refine ⟨?_, ?_, ?_⟩
    · intro q hq
      obtain ⟨b', hb'⟩ := dictSet_key_mem st.dict node false q hq
      exact hkeysub (q.1, b') hb'
    · intro k hk p hp
      simp only at hp
      cases hf : subs.find? (fun s => s.1 == k) with
      | some s =>
        rw [hf] at hp
        simp only [Option.some.injEq] at hp
        obtain ⟨hs1, hs2, hs3⟩ := trySubstitutes_mem fuel subgraphs odPairs node _ st.paths
          indices subs ht s (List.mem_of_find?_eq_some hf)
        have hkk : s.1 = k := by
          have := List.find?_some hf
          simpa using this
        have hsound := getFeasiblePath_sound (subgraphAt subgraphs s.1) (pairAt odPairs s.1)
          _ fuel (subgraphAt_keysNodup subgraphs hkeys s.1) (hs2 ▸ hs3)
        rw [← hs2, hkk, hp] at hsound
        refine feasibleAllowedPath_mono _ _ _ _ _ _ _ _ ?_ hsound
        intro u hu hpu
        simp only [Bool.and_eq_true, Bool.not_eq_true'] at hpu
        obtain ⟨hune, hreal⟩ := hpu
        exact isRealFilter_dictSet st.dict nodesTable node u
          (by simpa using beq_eq_false_iff_ne.mp hune) hreal
      | none =>
        rw [hf] at hp
        have hold := hfeas k hk p hp
        have hnode : node ∉ p := by
          intro hnp
          obtain ⟨q, hq⟩ := trySubstitutes_complete fuel subgraphs odPairs node _ st.paths
            indices subs ht k hk p hp hnp
          have := List.find?_eq_none.mp hf (k, q) hq
          simp at this
        refine feasibleAllowedPath_mono _ _ _ _ _ _ _ _ ?_ hold
        intro u hu hreal
        exact isRealFilter_dictSet st.dict nodesTable node u
          (fun he => hnode (he ▸ hu)) hreal
    · intro k hb
      have hold := hsome k hb
      simp only
      cases hf : subs.find? (fun s => s.1 == k) with
      | some s => simp
      | none => exact hold

theorem foldl_updateForNode_inv (fuel : ℕ) (solution : List Int)
    (nodesTable : List (Int × ℚ)) (indices : List ℕ) (subgraphs : List Digraph)
    (odPairs : List OdPairRow) (base : ℕ → Option (List Int))
    (hkeys : ∀ g ∈ subgraphs, keysNodup g) :
    ∀ (ns : List Int) (st : RRState),
    RRInv solution nodesTable indices subgraphs odPairs base st →
    RRInv solution nodesTable indices subgraphs odPairs base
      (ns.foldl (updateForNode fuel nodesTable indices subgraphs odPairs) st) := by
  intro ns
  induction ns with
  | nil => intro st h; exact h
  | cons n rest ih =>
    intro st h
    exact ih _ (updateForNode_inv fuel solution nodesTable indices subgraphs odPairs
      base hkeys st n h)

theorem rrInv_init (fuel : ℕ) (solution : List Int) (nodesTable : List (Int × ℚ))
    (subgraphs : List Digraph) (odPairs : List OdPairRow) (ignore : List Bool)
    (hkeys : ∀ g ∈ subgraphs, keysNodup g) :
    RRInv solution nodesTable (subgraphIndices odPairs subgraphs.length ignore)
      subgraphs odPairs
      (initialPaths fuel solution nodesTable subgraphs odPairs ignore)
      ⟨solution.map (fun u => (u, true)),
       initialPaths fuel solution nodesTable subgraphs odPairs ignore⟩ := by
  refine ⟨?_, ?_, ?_⟩
  · intro q hq
    obtain ⟨u, hu, hq⟩ := List.mem_map.mp hq
    rw [← hq]
    exact hu
  · intro k hk p hp
    simp only [initialPaths] at hp
    rw [if_pos hk] at hp
    by_cases hq : (getFeasiblePath (subgraphAt subgraphs k) (pairAt odPairs k)
        (isRealFilter (solution.map (fun u => (u, true))) nodesTable) fuel).isEmpty
    · rw [if_pos hq] at hp; exact absurd hp (by simp)
    · rw [if_neg hq] at hp
      simp only [Option.some.injEq] at hp
      subst hp
      exact getFeasiblePath_sound _ _ _ fuel (subgraphAt_keysNodup subgraphs hkeys k)
        (by intro hnil; rw [hnil] at hq; exact hq rfl)
  · intro k h
    exact h

/-- C6 (amended): `remove_redundancy` returns a subset `S'` of the input
solution `S`; every eligible OD pair whose initial oracle call succeeded
(over the stations of `S`) still admits a time-feasible path through
sites, zero-cost stations and stations of `S'`; and conversely every path
allowed under `S'` is allowed under `S`.  (The claim's stronger premise —
every pair that *admits* a feasible path under `S` — fails, because the
LARAC oracle is incomplete; see the counterexample.) -/
theorem c6_remove_redundancy_amended (fuel : ℕ) (solution : List Int)
    (nodesTable : List (Int × ℚ)) (subgraphs : List Digraph) (odPairs : List OdPairRow)
    (ignore : List Bool) (hkeys : ∀ g ∈ subgraphs, keysNodup g) :
    (∀ u ∈ removeRedundancy fuel solution nodesTable subgraphs odPairs ignore,
      u ∈ solution) ∧
    (∀ k ∈ subgraphIndices odPairs subgraphs.length ignore,
      (initialPaths fuel solution nodesTable subgraphs odPairs ignore k).isSome = true →
      AdmitsFeasible (subgraphAt subgraphs k)
        (solutionFilter nodesTable
          (removeRedundancy fuel solution nodesTable subgraphs odPairs ignore))
        (pairAt odPairs k)) ∧
    (∀ (k : ℕ) (p : List Int),
      FeasibleAllowedPath (subgraphAt subgraphs k)
        (solutionFilter nodesTable
          (removeRedundancy fuel solution nodesTable subgraphs odPairs ignore))
        (pairAt odPairs k).originId ((pairAt odPairs k).destinationId)
        (pairAt odPairs k).maxRoadTime (pairAt odPairs k).maxTime p →
      FeasibleAllowedPath (subgraphAt subgraphs k) (solutionFilter nodesTable solution)
        (pairAt odPairs k).originId ((pairAt odPairs k).destinationId)
        (pairAt odPairs k).maxRoadTime (pairAt odPairs k).maxTime p) := by
  set indices := subgraphIndices odPairs subgraphs.length ignore with hind
  set base := initialPaths fuel solution nodesTable subgraphs odPairs ignore with hbase
  set st0 : RRState := ⟨solution.map (fun u => (u, true)), base⟩ with hst0
  set stF := ((candidateIndices nodesTable).filter
      (fun n => isActiveDict st0.dict n)).foldl
    (updateForNode fuel nodesTable indices subgraphs odPairs) st0 with hstF
  have hrr : removeRedundancy fuel solution nodesTable subgraphs odPairs ignore =
      (candidateIndices nodesTable).filter (fun u => isActiveDict stF.dict u) := by
    rw [hstF, hst0, hbase, hind]
    rfl
  have hinvF : RRInv solution nodesTable indices subgraphs odPairs base stF :=
    foldl_updateForNode_inv fuel solution nodesTable indices subgraphs odPairs base hkeys
      _ st0 (rrInv_init fuel solution nodesTable subgraphs odPairs ignore hkeys)
  have hS'sub : ∀ u ∈ (candidateIndices nodesTable).filter
      (fun u => isActiveDict stF.dict u), u ∈ solution := by
    intro u hu
    have hact : isActiveDict stF.dict u = true := by
      simpa using (List.mem_filter.mp hu).2
    exact hinvF.1 (u, true) (isActiveDict_eq_true stF.dict u hact)
  refine ⟨?_, ?_, ?_⟩
  · intro u hu
    rw [hrr] at hu
    exact hS'sub u hu
  · intro k hk hsome
    obtain ⟨p, hp⟩ := Option.isSome_iff_exists.mp (hinvF.2.2 k hsome)
    have hfeas := hinvF.2.1 k hk p hp
    refine ⟨p, ?_⟩
    rw [hrr]
    refine feasibleAllowedPath_mono _ _ _ _ _ _ _ _ ?_ hfeas
    intro u hu hreal
    unfold isRealFilter at hreal
    unfold solutionFilter
    simp only [Bool.or_eq_true] at hreal ⊢
    rcases hreal with h12 | hact
    · exact Or.inl h12
    · by_cases hcand : 0 < costAtTable nodesTable u
      · have hmem : u ∈ (candidateIndices nodesTable).filter
            (fun u => isActiveDict stF.dict u) :=
          List.mem_filter.mpr ⟨costAt_pos_mem_candidates nodesTable u hcand,
            by simpa using hact⟩
        exact Or.inr (by simpa [List.contains, List.elem_iff] using hmem)
      · exact Or.inl (Or.inr (by simpa using hcand))
  · intro k p hp
    rw [hrr] at hp
    refine feasibleAllowedPath_mono _ _ _ _ _ _ _ _ ?_ hp
    intro u hu hsf
    unfold solutionFilter at hsf ⊢
    simp only [Bool.or_eq_true] at hsf ⊢
    rcases hsf with h12 | hc
    · exact Or.inl h12
    · have hmem : u ∈ (candidateIndices nodesTable).filter
          (fun u => isActiveDict stF.dict u) := by
        simpa [List.contains, List.elem_iff] using hc
      exact Or.inr (by simpa [List.contains, List.elem_iff] using hS'sub u hmem)

/-! #### C6 counterexample input

Site pair `(1, 2)` with three internally disjoint routes: via zero-cost
station `3` (road time 4, total time 32), via candidate station `4` of cost 5
(road time 12, total time 30, in split form through the dummy `-4`), and via
zero-cost station `5` (road time 24, total time 24); bounds
`max_road_time = 14`, `max_time = 30`.  Only the route through `4` meets both
bounds.  Both LARAC invocations terminate in their first iteration without
examining that route, so the initial oracle call finds nothing, and
`remove_redundancy` then drops station `4` (no stored path visits it) —
losing the only covered route. -/

def graphC6 : Digraph :=
  ⟨[(1, 0), (3, 0), (4, 5), (-4, 0), (5, 0), (2, 0)],
   [⟨1, 3, ⟨2, 14, 0, 0⟩⟩, ⟨3, 2, ⟨2, 14, 0, 0⟩⟩,
    ⟨1, 4, ⟨6, 9, 0, 0⟩⟩, ⟨4, -4, ⟨0, 0, 0, 0⟩⟩, ⟨-4, 2, ⟨6, 9, 0, 0⟩⟩,
    ⟨1, 5, ⟨12, 0, 0, 0⟩⟩, ⟨5, 2, ⟨12, 0, 0, 0⟩⟩]⟩

def tableC6 : List (Int × ℚ) := [(1, 0), (2, 0), (3, 0), (4, 5), (5, 0)]

def odPairC6 : OdPairRow := ⟨1, 2, 1, 14, 30, true⟩

def odPairsC6 : List OdPairRow := [odPairC6]

theorem spC6 : simplePaths graphC6 1 2 = [[1, 3, 2], [1, 4, -4, 2], [1, 5, 2]] := by
  decide

theorem eaC6_13 : graphC6.edgeAttrD 1 3 = ⟨2, 14, 0, 0⟩ := by decide

theorem eaC6_32 : graphC6.edgeAttrD 3 2 = ⟨2, 14, 0, 0⟩ := by decide

theorem eaC6_14 : graphC6.edgeAttrD 1 4 = ⟨6, 9, 0, 0⟩ := by decide

theorem eaC6_4m4 : graphC6.edgeAttrD 4 (-4) = ⟨0, 0, 0, 0⟩ := by decide

theorem eaC6_m42 : graphC6.edgeAttrD (-4) 2 = ⟨6, 9, 0, 0⟩ := by decide

theorem eaC6_15 : graphC6.edgeAttrD 1 5 = ⟨12, 0, 0, 0⟩ := by decide

theorem eaC6_52 : graphC6.edgeAttrD 5 2 = ⟨12, 0, 0, 0⟩ := by decide

theorem pcC6A_rt : pathCost graphC6 arcRoadTime [1, 3, 2] = 4 := by
  norm_num [pathCost, arcRoadTime, eaC6_13, eaC6_32]

theorem pcC6A_tt : pathCost graphC6 arcTime [1, 3, 2] = 32 := by
  norm_num [pathCost, arcTime, eaC6_13, eaC6_32]

theorem pcC6B_rt : pathCost graphC6 arcRoadTime [1, 4, -4, 2] = 12 := by
  norm_num [pathCost, arcRoadTime, eaC6_14, eaC6_4m4, eaC6_m42]

theorem pcC6B_tt : pathCost graphC6 arcTime [1, 4, -4, 2] = 30 := by
  norm_num [pathCost, arcTime, eaC6_14, eaC6_4m4, eaC6_m42]

theorem pcC6C_rt : pathCost graphC6 arcRoadTime [1, 5, 2] = 24 := by
  norm_num [pathCost, arcRoadTime, eaC6_15, eaC6_52]

theorem pcC6C_tt : pathCost graphC6 arcTime [1, 5, 2] = 24 := by
  norm_num [pathCost, arcTime, eaC6_15, eaC6_52]

/-- `argmin` over a three-element list keeps the head when neither later
element is strictly better. -/
theorem argmin_three {α : Type} (f : α → ℚ) (a b c : α)
    (h1 : ¬ f b < f a) (h2 : ¬ f c < f a) :
    ([a, b, c] : List α).argmin f = some a := by
  have s2 : List.argAux (fun x y => f x < f y) (some a) b = some a := by
    show (if f b < f a then some b else some a) = some a
    exact if_neg h1
  have s3 : List.argAux (fun x y => f x < f y) (some a) c = some a := by
    show (if f c < f a then some c else some a) = some a
    exact if_neg h2
  show List.argAux (fun x y => f x < f y) (List.argAux (fun x y => f x < f y)
      (List.argAux (fun x y => f x < f y) none a) b) c = some a
  rw [show List.argAux (fun x y => f x < f y) none a = some a from rfl, s2, s3]

/-- `argmin` over a three-element list selects the last element when the
sequence is strictly decreasing. -/
theorem argmin_three_last {α : Type} (f : α → ℚ) (a b c : α)
    (h1 : f b < f a) (h2 : f c < f b) :
    ([a, b, c] : List α).argmin f = some c := by
  have s2 : List.argAux (fun x y => f x < f y) (some a) b = some b := by
    show (if f b < f a then some b else some a) = some b
    exact if_pos h1
  have s3 : List.argAux (fun x y => f x < f y) (some b) c = some c := by
    show (if f c < f b then some c else some b) = some c
    exact if_pos h2
  show List.argAux (fun x y => f x < f y) (List.argAux (fun x y => f x < f y)
      (List.argAux (fun x y => f x < f y) none a) b) c = some c
  rw [show List.argAux (fun x y => f x < f y) none a = some a from rfl, s2, s3]

/-- Path weights are linear in the edge weight function, as used by the
Lagrangian cost `length + lam * weight` of `csp._larac`. -/
theorem pathCost_linear (g : Digraph) (lf wf : WFun) (lam : ℚ) :
    ∀ p, pathCost g (fun t h a => lf t h a + lam * wf t h a) p =
      pathCost g lf p + lam * pathCost g wf p := by
  intro p
  induction p with
  | nil => simp [pathCost]
  | cons u rest ih =>
    cases rest with
    | nil => simp [pathCost]
    | cons v rest' =>
      simp only [pathCost]
      rw [ih]
      ring

theorem spC6_argA (f : WFun) (cv : ℚ) (hA : pathCost graphC6 f [1, 3, 2] = cv)
    (h1 : ¬ pathCost graphC6 f [1, 4, -4, 2] < pathCost graphC6 f [1, 3, 2])
    (h2 : ¬ pathCost graphC6 f [1, 5, 2] < pathCost graphC6 f [1, 3, 2]) :
    shortestPath graphC6 1 2 f = some ([1, 3, 2], cv) := by
  have harg : (simplePaths graphC6 1 2).argmin (pathCost graphC6 f) = some [1, 3, 2] := by
    rw [spC6]
    exact argmin_three (pathCost graphC6 f) [1, 3, 2] [1, 4, -4, 2] [1, 5, 2] h1 h2
  simp only [shortestPath, harg, hA]

theorem spC6_argC (f : WFun) (cv : ℚ) (hC : pathCost graphC6 f [1, 5, 2] = cv)
    (h1 : pathCost graphC6 f [1, 4, -4, 2] < pathCost graphC6 f [1, 3, 2])
    (h2 : pathCost graphC6 f [1, 5, 2] < pathCost graphC6 f [1, 4, -4, 2]) :
    shortestPath graphC6 1 2 f = some ([1, 5, 2], cv) := by
  have harg : (simplePaths graphC6 1 2).argmin (pathCost graphC6 f) = some [1, 5, 2] := by
    rw [spC6]
    exact argmin_three_last (pathCost graphC6 f) [1, 3, 2] [1, 4, -4, 2] [1, 5, 2] h1 h2
  simp only [shortestPath, harg, hC]

/-- The oracle finds nothing on the C6 instance, for every positive fuel:
both LARAC invocations stop in their very first iteration (the Lagrangian
cost of the candidate route `1-4-(-4)-2` lies strictly above the lower
convex hull spanned by the other two routes). -/
theorem tfpC6 (n : ℕ) : timeFeasiblePath graphC6 1 2 14 30 (n + 1) = [] := by
  have hsp_tt : shortestPath graphC6 1 2 arcTime = some ([1, 5, 2], 24) :=
    spC6_argC arcTime 24 pcC6C_tt
      (by rw [pcC6B_tt, pcC6A_tt]; norm_num) (by rw [pcC6C_tt, pcC6B_tt]; norm_num)
  have hsp_rt : shortestPath graphC6 1 2 arcRoadTime = some ([1, 3, 2], 4) :=
    spC6_argA arcRoadTime 4 pcC6A_rt
      (by rw [pcC6B_rt, pcC6A_rt]; norm_num) (by rw [pcC6C_rt, pcC6A_rt]; norm_num)
  -- first LARAC call: road-time bound 14, minimizing total time
  have hlin1 := pathCost_linear graphC6 arcTime arcRoadTime ((32 - 24) / (24 - 4))
  have hA1 : pathCost graphC6
      (fun t h a => arcTime t h a + (32 - 24) / (24 - 4) * arcRoadTime t h a)
      [1, 3, 2] = 168 / 5 := by rw [hlin1, pcC6A_tt, pcC6A_rt]; norm_num
  have hB1 : pathCost graphC6
      (fun t h a => arcTime t h a + (32 - 24) / (24 - 4) * arcRoadTime t h a)
      [1, 4, -4, 2] = 174 / 5 := by rw [hlin1, pcC6B_tt, pcC6B_rt]; norm_num
  have hC1 : pathCost graphC6
      (fun t h a => arcTime t h a + (32 - 24) / (24 - 4) * arcRoadTime t h a)
      [1, 5, 2] = 168 / 5 := by rw [hlin1, pcC6C_tt, pcC6C_rt]; norm_num
  have hsp1 : shortestPath graphC6 1 2
      (fun t h a => arcTime t h a + (32 - 24) / (24 - 4) * arcRoadTime t h a) =
      some ([1, 3, 2], 168 / 5) :=
    spC6_argA _ (168 / 5) hA1 (by rw [hB1, hA1]; norm_num) (by rw [hC1, hA1]; norm_num)
  have hloop1 : laracLoop graphC6 1 2 14 arcRoadTime arcTime (n + 1) [1, 5, 2] [1, 3, 2] =
      some ([1, 3, 2], 32) := by
    rw [laracLoop]
    simp only [pcC6A_tt, pcC6C_tt, pcC6A_rt, pcC6C_rt, hsp1, hC1]
    rw [if_pos (show |(168 : ℚ) / 5 - 168 / 5| < EPS by norm_num [EPS])]
  have hlarac1 : larac graphC6 1 2 14 arcRoadTime arcTime (n + 1) = some ([1, 3, 2], 32) := by
    simp only [larac, hsp_tt, hsp_rt, pcC6C_rt]
    rw [if_neg (show ¬ (24 : ℚ) ≤ 14 by norm_num), if_neg (show ¬ (14 : ℚ) < 4 by norm_num)]
    exact hloop1
  -- second LARAC call: total-time bound 30, minimizing road time
  have hlin2 := pathCost_linear graphC6 arcRoadTime arcTime ((24 - 4) / (32 - 24))
  have hA2 : pathCost graphC6
      (fun t h a => arcRoadTime t h a + (24 - 4) / (32 - 24) * arcTime t h a)
      [1, 3, 2] = 84 := by rw [hlin2, pcC6A_rt, pcC6A_tt]; norm_num
  have hB2 : pathCost graphC6
      (fun t h a => arcRoadTime t h a + (24 - 4) / (32 - 24) * arcTime t h a)
      [1, 4, -4, 2] = 87 := by rw [hlin2, pcC6B_rt, pcC6B_tt]; norm_num
  have hC2 : pathCost graphC6
      (fun t h a => arcRoadTime t h a + (24 - 4) / (32 - 24) * arcTime t h a)
      [1, 5, 2] = 84 := by rw [hlin2, pcC6C_rt, pcC6C_tt]; norm_num
  have hsp2 : shortestPath graphC6 1 2
      (fun t h a => arcRoadTime t h a + (24 - 4) / (32 - 24) * arcTime t h a) =
      some ([1, 3, 2], 84) :=
    spC6_argA _ 84 hA2 (by rw [hB2, hA2]; norm_num) (by rw [hC2, hA2]; norm_num)
  have hloop2 : laracLoop graphC6 1 2 30 arcTime arcRoadTime (n + 1) [1, 3, 2] [1, 5, 2] =
      some ([1, 5, 2], 24) := by
    rw [laracLoop]
    simp only [pcC6A_tt, pcC6C_tt, pcC6A_rt, pcC6C_rt, hsp2, hA2]
    rw [if_pos (show |(84 : ℚ) - 84| < EPS by norm_num [EPS])]
  have hlarac2 : larac graphC6 1 2 30 arcTime arcRoadTime (n + 1) = some ([1, 5, 2], 24) := by
    simp only [larac, hsp_tt, hsp_rt, pcC6A_tt]
    rw [if_neg (show ¬ (32 : ℚ) ≤ 30 by norm_num), if_neg (show ¬ (30 : ℚ) < 24 by norm_num)]
    exact hloop2
  simp only [timeFeasiblePath, roadTimeBoundedFastestPath, hlarac1,
    timeBoundedFastestRoadPath, hlarac2]
  rw [if_pos (show (30 : ℚ) < 32 by norm_num), if_pos (show (14 : ℚ) < 24 by norm_num)]

theorem filterC6_full :
    filterGraph graphC6 (isRealFilter [((4 : Int), true)] tableC6) = graphC6 := by
  decide

theorem oracleC6 : getFeasiblePath (subgraphAt [graphC6] 0) (pairAt odPairsC6 0)
    (isRealFilter [((4 : Int), true)] tableC6) 30 = [] := by
  show getFeasiblePath graphC6 odPairC6 (isRealFilter [((4 : Int), true)] tableC6) 30 = []
  unfold getFeasiblePath
  rw [filterC6_full]
  exact tfpC6 29

theorem initialPathsC6 : initialPaths 30 [4] tableC6 [graphC6] odPairsC6 [false] 0 = none := by
  simp only [initialPaths, List.map_cons, List.map_nil]
  rw [if_pos (show (0 : ℕ) ∈ subgraphIndices odPairsC6 (List.length [graphC6]) [false]
    by decide)]
  rw [oracleC6]
  rfl

theorem removeRedundancyC6 :
    removeRedundancy 30 [4] tableC6 [graphC6] odPairsC6 [false] = [] := by
  have htry : ∀ (flt : Int → Bool),
      trySubstitutes 30 [graphC6] odPairsC6 4 flt
        (initialPaths 30 [4] tableC6 [graphC6] odPairsC6 [false]) [0] = some [] := by
    intro flt
    rw [trySubstitutes, initialPathsC6]
    rfl
  have hidx : subgraphIndices odPairsC6 (List.length [graphC6]) [false] = [0] := by decide
  have hflt0 : List.filter (fun n => isActiveDict [((4 : Int), true)] n)
      (candidateIndices tableC6) = [4] := by decide
  simp only [removeRedundancy, updateSubstitutePaths, List.map_cons, List.map_nil, hidx,
    hflt0, List.foldl_cons, List.foldl_nil, updateForNode]
  rw [htry]
  decide

theorem fgC6_S : filterGraph graphC6 (solutionFilter tableC6 [4]) = graphC6 := by decide

theorem fgC6_empty : filterGraph graphC6 (solutionFilter tableC6 []) =
    ⟨[(1, 0), (3, 0), (-4, 0), (5, 0), (2, 0)],
     [⟨1, 3, ⟨2, 14, 0, 0⟩⟩, ⟨3, 2, ⟨2, 14, 0, 0⟩⟩, ⟨-4, 2, ⟨6, 9, 0, 0⟩⟩,
      ⟨1, 5, ⟨12, 0, 0, 0⟩⟩, ⟨5, 2, ⟨12, 0, 0, 0⟩⟩]⟩ := by decide

/-- C6: counterexample to the claimed coverage preservation of
`remove_redundancy`.  On the C6 instance (one eligible OD pair, solution
`S = {4}`), the function returns `S' = ∅`, yet the pair admits a
time-feasible path through sites, zero-cost stations and stations of `S`
(namely `1-4-(-4)-2`) and admits none through stations of `S'` alone: the
covered-pair set shrinks, because the incomplete LARAC oracle misses the
route through `4` already in the initial call. -/
theorem c6_remove_redundancy_counterexample :
    removeRedundancy 30 [4] tableC6 [graphC6] odPairsC6 [false] = [] ∧
    (pairAt odPairsC6 0).feasible = true ∧ 0 < (pairAt odPairsC6 0).demand ∧
    AdmitsFeasible graphC6 (solutionFilter tableC6 [4]) (pairAt odPairsC6 0) ∧
    ¬ AdmitsFeasible graphC6 (solutionFilter tableC6 []) (pairAt odPairsC6 0) := by
  refine ⟨removeRedundancyC6, by decide, by decide, ?_, ?_⟩
  · refine ⟨[1, 4, -4, 2], ⟨?_, ?_, ?_⟩⟩
    · rw [fgC6_S]
      refine ⟨by decide, rfl, rfl, ?_⟩
      refine List.chain'_cons.mpr ⟨⟨⟨1, 4, ⟨6, 9, 0, 0⟩⟩, by decide, rfl, rfl⟩, ?_⟩
      refine List.chain'_cons.mpr ⟨⟨⟨4, -4, ⟨0, 0, 0, 0⟩⟩, by decide, rfl, rfl⟩, ?_⟩
      refine List.chain'_cons.mpr ⟨⟨⟨-4, 2, ⟨6, 9, 0, 0⟩⟩, by decide, rfl, rfl⟩, ?_⟩
      exact List.chain'_singleton 2
    · have hb : (pairAt odPairsC6 0).maxRoadTime = 14 := rfl
      rw [hb, pcC6B_rt]
      norm_num
    · have hb : (pairAt odPairsC6 0).maxTime = 30 := rfl
      rw [hb, pcC6B_tt]
  · rintro ⟨p, ⟨hne, hhead, hlast, hchain⟩, hroad, htime⟩
    rw [fgC6_empty] at hchain
    have hadj : ∀ u v : Int, adjacent (⟨[(1, 0), (3, 0), (-4, 0), (5, 0), (2, 0)],
        [⟨1, 3, ⟨2, 14, 0, 0⟩⟩, ⟨3, 2, ⟨2, 14, 0, 0⟩⟩, ⟨-4, 2, ⟨6, 9, 0, 0⟩⟩,
         ⟨1, 5, ⟨12, 0, 0, 0⟩⟩, ⟨5, 2, ⟨12, 0, 0, 0⟩⟩]⟩ : Digraph) u v →
        (u = 1 ∧ v = 3) ∨ (u = 3 ∧ v = 2) ∨ (u = -4 ∧ v = 2) ∨
        (u = 1 ∧ v = 5) ∨ (u = 5 ∧ v = 2) := by
      rintro u v ⟨e, he, ht, hh⟩
      simp only [List.mem_cons, List.not_mem_nil, or_false] at he
      rcases he with rfl | rfl | rfl | rfl | rfl
      · exact Or.inl ⟨ht.symm, hh.symm⟩
      · exact Or.inr (Or.inl ⟨ht.symm, hh.symm⟩)
      · exact Or.inr (Or.inr (Or.inl ⟨ht.symm, hh.symm⟩))
      · exact Or.inr (Or.inr (Or.inr (Or.inl ⟨ht.symm, hh.symm⟩)))
      · exact Or.inr (Or.inr (Or.inr (Or.inr ⟨ht.symm, hh.symm⟩)))
    have ho : (pairAt odPairsC6 0).originId = 1 := rfl
    have hd : (pairAt odPairsC6 0).destinationId = 2 := rfl
    have hR : (pairAt odPairsC6 0).maxRoadTime = 14 := rfl
    have hT : (pairAt odPairsC6 0).maxTime = 30 := rfl
    rw [ho] at hhead
    rw [hd] at hlast
    rw [hR] at hroad
    rw [hT] at htime
    cases p with
    | nil => exact hne rfl
    | cons a rest =>
      have ha : a = 1 := by simpa using hhead
      subst ha
      cases rest with
      | nil => simp at hlast
      | cons x rest2 =>
        obtain ⟨h1x, hchain2⟩ := List.chain'_cons.mp hchain
        rcases hadj 1 x h1x with ⟨-, rfl⟩ | ⟨h, -⟩ | ⟨h, -⟩ | ⟨-, rfl⟩ | ⟨h, -⟩
        · cases rest2 with
          | nil => simp at hlast
          | cons y rest3 =>
            obtain ⟨h3y, hchain3⟩ := List.chain'_cons.mp hchain2
            rcases hadj 3 y h3y with ⟨h, -⟩ | ⟨-, rfl⟩ | ⟨h, -⟩ | ⟨h, -⟩ | ⟨h, -⟩
            · exact absurd h (by decide)
            · cases rest3 with
              | nil =>
                rw [pcC6A_tt] at htime
                norm_num at htime
              | cons z rest4 =>
                obtain ⟨h2z, -⟩ := List.chain'_cons.mp hchain3
                rcases hadj 2 z h2z with ⟨h, -⟩ | ⟨h, -⟩ | ⟨h, -⟩ | ⟨h, -⟩ | ⟨h, -⟩ <;>
                  exact absurd h (by decide)
            · exact absurd h (by decide)
            · exact absurd h (by decide)
            · exact absurd h (by decide)
        · exact absurd h (by decide)
        · exact absurd h (by decide)
        · cases rest2 with
          | nil => simp at hlast
          | cons y rest3 =>
            obtain ⟨h5y, hchain3⟩ := List.chain'_cons.mp hchain2
            rcases hadj 5 y h5y with ⟨h, -⟩ | ⟨h, -⟩ | ⟨h, -⟩ | ⟨h, -⟩ | ⟨-, rfl⟩
            · exact absurd h (by decide)
            · exact absurd h (by decide)
            · exact absurd h (by decide)
            · exact absurd h (by decide)
            · cases rest3 with
              | nil =>
                rw [pcC6C_rt] at hroad
                norm_num at hroad
              | cons z rest4 =>
                obtain ⟨h2z, -⟩ := List.chain'_cons.mp hchain3
                rcases hadj 2 z h2z with ⟨h, -⟩ | ⟨h, -⟩ | ⟨h, -⟩ | ⟨h, -⟩ | ⟨h, -⟩ <;>
                  exact absurd h (by decide)
        · exact absurd h (by decide)

theorem keysNodupC6 : ∀ g ∈ [graphC6], keysNodup g := by
  intro g hg
  rw [List.mem_singleton] at hg
  subst hg
  show (graphC6.edges.map (fun e => (e.tail, e.head))).Nodup
  decide

/-- Witness for the amended C6 theorem at a concrete instance: the edge-key
uniqueness hypothesis holds for the C6 subgraph, and the theorem yields the
subset property of the returned station set. -/
theorem c6_remove_redundancy_amended_witness :
    (∀ g ∈ [graphC6], keysNodup g) ∧
    (∀ u ∈ removeRedundancy 30 [4] tableC6 [graphC6] odPairsC6 [false], u ∈ [4]) :=
  ⟨keysNodupC6, (c6_remove_redundancy_amended 30 [4] tableC6 [graphC6] odPairsC6 [false]
    keysNodupC6).1⟩

end Chalet
